import Mathlib

/-
  Verification development for the inventory ledger engine
  (materials.go of the Inventory-App web server).

  The Go functions are shallowly embedded as pure functions over an
  explicit database state.  Conventions of the embedding:

  * SQL tables become lists of rows kept in insertion order; the serial
    primary-key sequences become explicit `nextMaterialId` / `nextPriceId`
    counters.
  * Go `int` quantities become `Int`.  Unit costs (Go `float64`) become
    `Int` (e.g. cents): the code never does arithmetic on a cost, it only
    stores costs, compares them for equality (the ON CONFLICT key of the
    prices table) and copies them around, so any type with decidable
    equality is a faithful model.
  * Timestamps (`updated_at`, the `time.Now()` fragments of the
    auto-generated job tickets) never influence control flow and are
    dropped; auto-generated job tickets are modelled by a fixed string.
  * A Go `error` becomes `Except String`, with the `database/sql`
    no-row error text where the code surfaces that error.
  * `removePricesFIFO` ranges over a Go map (`map[int]Price`).  Go map
    iteration order is unspecified, so the loop is embedded with an
    explicit `iteration` parameter: the list of live lots in the order
    the `range` happens to visit them.  A legal iteration order is any
    permutation of the rows returned by `getMaterialPrices`.
  * `moveMaterial` issues its destination UPDATE/INSERT on the raw `db`
    handle while everything else runs on the transaction `tx`, and it
    installs `defer tx.Commit()` before any error can occur.  The
    embedding therefore threads two states: the committed state (what
    the raw handle sees and what survives `tx.Rollback()`) and the
    transaction's working state (committed at `tx.Commit()`).  Error
    returns that in Go are taken without calling `tx.Rollback()` hit the
    deferred `tx.Commit()` and hence commit the working state.
  * Store/database failures are environmental.  The two call sites of
    `moveMaterial` where a failure is injected for the error-handling
    claims carry an explicit `FailSpec` flag each; `noFail` is the
    failure-free run.
-/

namespace InventoryLedger

/-- A row of the `materials` table (the LocatedMaterial of the spec).
`locationId = none` models a NULL `location_id` (an unplaced/retired
record). -/
structure MaterialRow where
  materialId : Nat
  stockId : String
  locationId : Option Nat
  customerId : Nat
  materialType : String
  description : String
  notes : String
  quantity : Int
  isActive : Bool
  minQty : Int
  maxQty : Int
  owner : String
  isPrimary : Bool
deriving Repr, DecidableEq

/-- A row of the `prices` table (the Lot of the spec).  `initialQty` is a
ghost field not present in the table: it records the quantity the row was
created with by the INSERT arm of `upsertPrice` and is never changed
afterwards.  It exists only so that the spec's `L.initialQuantity` can be
stated; no embedded operation reads it. -/
structure PriceRow where
  priceId : Nat
  materialId : Nat
  qty : Int
  cost : Int
  initialQty : Int
deriving Repr, DecidableEq

/-- A row of the `transactions_log` table (the LedgerEntry of the spec). -/
structure TransactionRow where
  priceId : Nat
  qtyChange : Int
  notes : String
  jobTicket : String
deriving Repr, DecidableEq

/-- A row of the `incoming_materials` table (the IncomingShipment of the
spec). -/
structure IncomingRow where
  shippingId : Nat
  customerId : Nat
  stockId : String
  cost : Int
  quantity : Int
  minQty : Int
  maxQty : Int
  description : String
  isActive : Bool
  materialType : String
  owner : String
deriving Repr, DecidableEq

/-- The whole database state. -/
structure DBState where
  incoming : List IncomingRow
  materials : List MaterialRow
  prices : List PriceRow
  transactionsLog : List TransactionRow
  nextMaterialId : Nat
  nextPriceId : Nat
deriving Repr, DecidableEq

/-- The `rows.Next/Scan` loops of the Go code overwrite a single scanned
variable, keeping the id of the last returned row and the zero value `0`
when no row matched. -/
def lastScannedId (ms : List MaterialRow) : Nat :=
  ms.foldl (fun _ m => m.materialId) 0

/-- `getMaterialPrices`: `SELECT * FROM prices WHERE material_id = $1 AND
quantity > 0 ORDER BY price_id ASC`.  `prices` is kept in id-ascending
insertion order, so the filter realises the ORDER BY. -/
def getMaterialPrices (st : DBState) (materialId : Nat) : List PriceRow :=
  st.prices.filter (fun p => p.materialId == materialId && decide (0 < p.qty))

/-- The UPDATE shape shared by `updatePriceQty` and the conflict arm of
`upsertPrice`: add `delta` to the quantity of every row matching `cond`. -/
def bumpPrices (cond : PriceRow → Bool) (delta : Int) (ps : List PriceRow) : List PriceRow :=
  ps.map (fun r => if cond r then { r with qty := r.qty + delta } else r)

/-- `updatePriceQty`: `UPDATE prices SET quantity = quantity + $2 WHERE
price_id = $1 RETURNING cost`; `QueryRow.Scan` surfaces the no-row error
when the lot does not exist. -/
def updatePriceQty (st : DBState) (priceId : Nat) (delta : Int) :
    Except String (Int × DBState) :=
  match st.prices.find? (fun p => p.priceId == priceId) with
  | none => .error ("sql: no rows in result set")
  | some p =>
      .ok (p.cost,
        { st with prices := bumpPrices (fun r => r.priceId == priceId) delta st.prices })

/-- `upsertPrice`: `INSERT INTO prices (material_id, quantity, cost) ...
ON CONFLICT (material_id, cost) DO UPDATE SET quantity = quantity +
EXCLUDED.quantity RETURNING price_id`. -/
def upsertPrice (st : DBState) (materialId : Nat) (qty : Int) (cost : Int) :
    Nat × DBState :=
  match st.prices.find? (fun p => p.materialId == materialId && p.cost == cost) with
  | some p =>
      (p.priceId,
        { st with prices :=
            bumpPrices (fun r => r.materialId == materialId && r.cost == cost) qty st.prices })
  | none =>
      (st.nextPriceId,
        { st with
            prices := st.prices ++ [⟨st.nextPriceId, materialId, qty, cost, qty⟩],
            nextPriceId := st.nextPriceId + 1 })

/-- `addTranscation` (sic): `INSERT INTO transactions_log ...`. -/
def addTranscation (st : DBState) (t : TransactionRow) : DBState :=
  { st with transactionsLog := st.transactionsLog ++ [t] }

/-- The `for priceId, priceInfo := range materialPrices` loop of
`removePricesFIFO`: `iteration` is the order in which the Go map range
visits the live lots.  Each visited lot loses
`min(remainingQty, lot.qty)`, one ledger row is appended per visited lot,
and the loop breaks once the remaining quantity fits into the current
lot.  Lots visited after the remainder is exhausted are never visited
because of the `break`. -/
def fifoLoop : List PriceRow → Int → String → String → DBState →
    Except String (List (Int × Int) × DBState)
  | [], _, _, _, st => .ok ([], st)
  | p :: rest, remainingQty, notes, jobTicket, st =>
    if remainingQty ≤ p.qty then
      match updatePriceQty st p.priceId (-remainingQty) with
      | .error e => .error e
      | .ok (cost, st1) =>
          .ok ([(remainingQty, cost)],
            addTranscation st1 ⟨p.priceId, -remainingQty, notes, jobTicket⟩)
    else
      match updatePriceQty st p.priceId (-p.qty) with
      | .error e => .error e
      | .ok (cost, st1) =>
          match fifoLoop rest (remainingQty - p.qty) notes jobTicket
              (addTranscation st1 ⟨p.priceId, -p.qty, notes, jobTicket⟩) with
          | .error e => .error e
          | .ok (rs, st2) => .ok ((p.qty, cost) :: rs, st2)

/-- `removePricesFIFO`: fetches the live lots of the material into a Go
map and ranges over it.  The map loses the `ORDER BY price_id ASC` of
`getMaterialPrices`; `iteration` stands for the unspecified map range
order and is constrained (in the theorems) to be a permutation of
`getMaterialPrices st materialId`.  Returns the removed (quantity, cost)
pairs. -/
def removePricesFIFO (iteration : List PriceRow) (qty : Int)
    (notes jobTicket : String) (st : DBState) :
    Except String (List (Int × Int) × DBState) :=
  fifoLoop iteration qty notes jobTicket st

/-- `deleteIncomingMaterial`: `DELETE FROM incoming_materials WHERE
shipping_id = $1`. -/
def deleteIncomingMaterial (st : DBState) (shippingId : Nat) : DBState :=
  { st with incoming := st.incoming.filter (fun r => r.shippingId != shippingId) }

/-- The already-parsed arguments of `createMaterial` (Receive): the
`MaterialJSON` fields it reads, with the string quantity/ids parsed as
the transport layer is specified to do. -/
structure ReceiveInput where
  intakeId : Nat
  locationId : Nat
  qty : Int
  notes : String
deriving Repr, DecidableEq

/-- The shared tail of both `createMaterial` branches (materials.go
456-466 and 541-571): upsert the price for the resolved material, delete
the incoming shipment, and append the single ledger row (empty job
ticket). -/
def receiveFinish (shipment : IncomingRow) (inp : ReceiveInput)
    (step : Nat × DBState) : Except String Nat × DBState :=
  let pr := upsertPrice step.2 step.1 inp.qty shipment.cost
  let st3 := deleteIncomingMaterial pr.2 inp.intakeId
  (.ok step.1, addTranscation st3 ⟨pr.1, inp.qty, inp.notes, ""⟩)

/-- The no-material-at-location branch of `createMaterial` (materials.go
467-539): reuse a NULL-location record for the same stock and owner if
one exists (setting its quantity, notes and location), else insert a new
material row.  Returns the resolved material id with the new state. -/
def receivePlace (shipment : IncomingRow) (inp : ReceiveInput) (st1 : DBState) :
    Nat × DBState :=
  let cond2 := fun (m : MaterialRow) =>
    m.locationId == none && m.stockId == shipment.stockId &&
      m.owner == shipment.owner
  let materialId2 := lastScannedId (st1.materials.filter cond2)
  let relocated := st1.materials.map (fun m =>
    if m.materialId == materialId2 then
      { m with quantity := inp.qty, notes := inp.notes,
               locationId := some inp.locationId }
    else m)
  let freshRow : MaterialRow :=
    ⟨st1.nextMaterialId, shipment.stockId, some inp.locationId,
      shipment.customerId, shipment.materialType, shipment.description,
      inp.notes, inp.qty, shipment.isActive, shipment.minQty,
      shipment.maxQty, shipment.owner, false⟩
  if materialId2 != 0 then
    (materialId2, { st1 with materials := relocated })
  else
    (st1.nextMaterialId,
      { st1 with materials := st1.materials ++ [freshRow],
                 nextMaterialId := st1.nextMaterialId + 1 })

/-- `createMaterial` (Receive).  All statements run on the transaction,
so an error leaves the initial state and success commits the working
state.  Returns the affected material id. -/
def createMaterial (st0 : DBState) (inp : ReceiveInput) :
    Except String Nat × DBState :=
  match st0.incoming.find? (fun r => r.shippingId == inp.intakeId) with
  | none => (.error ("sql: no rows in result set"), st0)
  | some shipment =>
    let cond1 := fun (m : MaterialRow) =>
      m.stockId == shipment.stockId && m.locationId == some inp.locationId &&
        m.owner == shipment.owner
    let mats1 := st0.materials.map (fun m =>
      if cond1 m then { m with quantity := m.quantity + inp.qty, notes := inp.notes }
      else m)
    let st1 := { st0 with materials := mats1 }
    let materialId := lastScannedId (st0.materials.filter cond1)
    if materialId != 0 then
      receiveFinish shipment inp (materialId, st1)
    else
      receiveFinish shipment inp (receivePlace shipment inp st1)

/-- `getMaterialById`: `SELECT * FROM materials WHERE material_id = $1`,
`QueryRow.Scan` failing with the no-row error when absent. -/
def getMaterialById (st : DBState) (materialId : Nat) : Except String MaterialRow :=
  match st.materials.find? (fun m => m.materialId == materialId) with
  | none => .error ("sql: no rows in result set")
  | some m => .ok m

/-- The deferred exact-quantity retirement of `moveMaterial` and the
inline one of `removeMaterial`: `UPDATE materials SET location_id = NULL,
quantity = 0 WHERE material_id = $1`. -/
def retireSource (materialId : Nat) (st : DBState) : DBState :=
  let retired := st.materials.map (fun m =>
    if m.materialId == materialId then { m with locationId := none, quantity := 0 }
    else m)
  { st with materials := retired }

/-- The already-parsed arguments of `moveMaterial`.  (Its `Notes` field is
never read by the Go function, which reuses the source row's notes.) -/
structure MoveInput where
  materialId : Nat
  locationId : Nat
  qty : Int
deriving Repr, DecidableEq

/-- Injection points for environmental store failures inside
`moveMaterial`: the destination UPDATE on the raw handle and the first
destination lot upsert. -/
structure FailSpec where
  failDestUpdate : Bool
  failDestUpsert : Bool
deriving Repr, DecidableEq

/-- The failure-free environment. -/
def noFail : FailSpec := ⟨false, false⟩

/-- The destination half of `moveMaterial` (materials.go 705-775) plus
its two deferred statements: the UPDATE/INSERT of the destination
material runs on the raw `db` handle, so it applies to both the committed
state `st0` and the transaction's working state `w2`, immediately and
irrevocably; the lot upserts and their ledger rows run on the
transaction; on every path that returns without `tx.Rollback()` the
deferred exact-quantity retirement and the deferred `tx.Commit()` run, so
the working state commits; the `tx.Rollback()` path (upsert failure)
returns the committed state, which already carries the destination
update. -/
def moveDest (fs : FailSpec) (curr : MaterialRow) (inp : MoveInput)
    (st0 w2 : DBState) (removedPrices : List (Int × Int)) :
    Except String Unit × DBState :=
  let finish := fun (w : DBState) =>
    if curr.quantity == inp.qty then retireSource curr.materialId w else w
  if fs.failDestUpdate then
    (.error ("db: destination update failed"), finish w2)
  else
    let destCond := fun (m : MaterialRow) =>
      m.stockId == curr.stockId && m.locationId == some inp.locationId &&
        m.owner == curr.owner
    let destBump := fun (s : DBState) =>
      let bumped := s.materials.map (fun m =>
        if destCond m then { m with quantity := m.quantity + inp.qty } else m)
      { s with materials := bumped }
    let foundId := lastScannedId (st0.materials.filter destCond)
    let c1 := destBump st0
    let w3 := destBump w2
    let ins : Nat × DBState × DBState :=
      if foundId != 0 then (foundId, c1, w3)
      else
        let newRow : MaterialRow :=
          ⟨w3.nextMaterialId, curr.stockId, some inp.locationId,
            curr.customerId, curr.materialType, curr.description, curr.notes,
            inp.qty, curr.isActive, curr.minQty, curr.maxQty, curr.owner, false⟩
        (w3.nextMaterialId,
          { c1 with materials := c1.materials ++ [newRow], nextMaterialId := c1.nextMaterialId + 1 },
          { w3 with materials := w3.materials ++ [newRow], nextMaterialId := w3.nextMaterialId + 1 })
    if fs.failDestUpsert then
      (.error ("db: destination upsert failed"), ins.2.1)
    else
      let w5 := removedPrices.foldl
        (fun (w : DBState) (rp : Int × Int) =>
          let pr := upsertPrice w ins.1 rp.1 rp.2
          addTranscation pr.2 ⟨pr.1, rp.1, "Moved FROM a Location", "Auto-Ticket"⟩)
        ins.2.2
      (.ok (), finish w5)

/-- `moveMaterial` (Move).  The transaction-scoped statements (source
update, FIFO consumption, and everything in `moveDest` except the raw
destination UPDATE/INSERT) act on the working state.  The Go code
installs `defer tx.Commit()` before any error can occur, so the error
returns it takes without calling `tx.Rollback()` still commit the
transaction's work; explicit `tx.Rollback()` paths return the committed
state. -/
def moveMaterial (fs : FailSpec) (iteration : List PriceRow) (st0 : DBState)
    (inp : MoveInput) : Except String Unit × DBState :=
  match getMaterialById st0 inp.materialId with
  | .error e => (.error e, st0)
  | .ok curr =>
    let actualQuantity := curr.quantity
    if actualQuantity < inp.qty then
      (.error ("The moving quantity (" ++ toString inp.qty ++
        ") is more than the actual one (" ++ toString actualQuantity ++ ")"), st0)
    else
      let decremented := st0.materials.map (fun m =>
        if m.materialId == curr.materialId && m.locationId == curr.locationId then
          { m with quantity := m.quantity - inp.qty, notes := curr.notes }
        else m)
      let sourceStep : Except String DBState :=
        if inp.qty < actualQuantity then
          match curr.locationId with
          | none => .error ("sql: no rows in result set")
          | some _ => .ok { st0 with materials := decremented }
        else .ok st0
      match sourceStep with
      | .error e => (.error e, st0)
      | .ok w1 =>
        match removePricesFIFO iteration inp.qty ("Moved TO a Location")
            ("Auto-Ticket") w1 with
        | .error e => (.error e, st0)
        | .ok (removedPrices, w2) => moveDest fs curr inp st0 w2 removedPrices

/-- The already-parsed arguments of `removeMaterial`. -/
structure RemoveInput where
  materialId : Nat
  qty : Int
  jobTicket : String
deriving Repr, DecidableEq

/-- `removeMaterial` (Remove).  All statements run on the transaction. -/
def removeMaterial (iteration : List PriceRow) (st0 : DBState)
    (inp : RemoveInput) : Except String Unit × DBState :=
  match getMaterialById st0 inp.materialId with
  | .error e => (.error ("Unable to get the current material info: " ++ e), st0)
  | .ok curr =>
    let actualQuantity := curr.quantity
    if actualQuantity < inp.qty then
      (.error ("The removing quantity (" ++ toString inp.qty ++
        ") is more than the actual one (" ++ toString actualQuantity ++ ")"), st0)
    else
      let decremented := st0.materials.map (fun m =>
        if m.materialId == inp.materialId then
          { m with quantity := m.quantity - inp.qty }
        else m)
      let w1 :=
        if actualQuantity == inp.qty then retireSource inp.materialId st0
        else { st0 with materials := decremented }
      match removePricesFIFO iteration inp.qty ("Removed FROM a Location")
          inp.jobTicket w1 with
      | .error e => (.error e, st0)
      | .ok (_, w2) => (.ok (), w2)

/-- The already-parsed arguments of `updateMaterial` (Adjust). -/
structure AdjustInput where
  materialId : Nat
  isPrimary : Bool
deriving Repr, DecidableEq

/-- `updateMaterial` (Adjust): `UPDATE materials SET is_primary = $2 WHERE
material_id = $1`, outside any transaction. -/
def updateMaterial (st : DBState) (inp : AdjustInput) : Except String Unit × DBState :=
  let adjusted := st.materials.map (fun m =>
    if m.materialId == inp.materialId then { m with isPrimary := inp.isPrimary }
    else m)
  (.ok (), { st with materials := adjusted })

/-- One ledger command of the spec. -/
inductive Command where
  | receive : ReceiveInput → Command
  | move : FailSpec → MoveInput → Command
  | remove : RemoveInput → Command
  | adjust : AdjustInput → Command
deriving Repr, DecidableEq

/-- Dispatch one command, yielding its result and the committed state it
leaves behind. -/
def runCommand (iteration : List PriceRow) (c : Command) (st : DBState) :
    Except String Unit × DBState :=
  match c with
  | .receive inp =>
      let r := createMaterial st inp
      (r.1.map (fun _ => ()), r.2)
  | .move fs inp => moveMaterial fs iteration st inp
  | .remove inp => removeMaterial iteration st inp
  | .adjust inp => updateMaterial st inp

/-- Sum of the live (positive-quantity) lots of a material: the spec's
`sum(lot.quantity for lot in liveLots(M))`. -/
def liveSum (st : DBState) (materialId : Nat) : Int :=
  ((getMaterialPrices st materialId).map (fun p => p.qty)).sum

/-- The spec's per-material invariant: every located material's aggregate
quantity equals the sum of its live lots. -/
def locatedQtyMatches (st : DBState) : Prop :=
  ∀ m ∈ st.materials, m.locationId ≠ none → m.quantity = liveSum st m.materialId

/-- Sum of the deltas a list of ledger rows records for one lot. -/
def logSum (ts : List TransactionRow) (priceId : Nat) : Int :=
  ((ts.filter (fun t => t.priceId == priceId)).map (fun t => t.qtyChange)).sum

/-- Sum of the ledger deltas recorded for one lot. -/
def ledgerSumFor (st : DBState) (priceId : Nat) : Int :=
  logSum st.transactionsLog priceId

/-- Total quantity held by the lot rows carrying one price id (the row's
quantity when ids are unique, `0` when the id is absent). -/
def qtyById (ps : List PriceRow) (priceId : Nat) : Int :=
  ((ps.filter (fun p => p.priceId == priceId)).map (fun p => p.qty)).sum

/-- The reconciliation invariant that actually holds of the code: every
lot's quantity is the sum of all ledger deltas recorded for it (the
creating INSERT is itself ledgered). -/
def LedgerMatches (st : DBState) : Prop :=
  ∀ p ∈ st.prices, p.qty = ledgerSumFor st p.priceId

/-- Total located stock of one stock-identity and owner. -/
def stockTotal (st : DBState) (stockId owner : String) : Int :=
  ((st.materials.filter (fun m =>
      m.stockId == stockId && m.owner == owner && m.locationId.isSome)).map
    (fun m => m.quantity)).sum

/-- The lot-store part of the schema facts: unique price ids, the unique
(material, cost) index behind ON CONFLICT, and freshness of the price-id
sequence with respect to both the lot rows and the ledger rows. -/
def LotSchema (st : DBState) : Prop :=
  (st.prices.map (fun p => p.priceId)).Nodup ∧
  (st.prices.map (fun p => (p.materialId, p.cost))).Nodup ∧
  (∀ p ∈ st.prices, p.priceId < st.nextPriceId) ∧
  (∀ t ∈ st.transactionsLog, t.priceId < st.nextPriceId)

/-- The structural facts any real database guarantees by schema (serial
primary keys, the unique index behind ON CONFLICT (material_id, cost)),
phrased over the embedded state. -/
def SchemaWF (st : DBState) : Prop :=
  (st.materials.map (fun m => m.materialId)).Nodup ∧
  (∀ m ∈ st.materials, 0 < m.materialId ∧ m.materialId < st.nextMaterialId) ∧
  (st.prices.map (fun p => p.priceId)).Nodup ∧
  (∀ p ∈ st.prices, p.priceId < st.nextPriceId ∧ p.materialId < st.nextMaterialId) ∧
  (st.prices.map (fun p => (p.materialId, p.cost))).Nodup ∧
  (∀ t ∈ st.transactionsLog, t.priceId < st.nextPriceId)

/-- Full well-formedness: schema facts plus the quantity bookkeeping the
spec intends (nonnegative lots, located rows matching their live-lot sum,
unplaced rows fully retired, at most one located row per
(stock, location, owner)). -/
def WellFormed (st : DBState) : Prop :=
  SchemaWF st ∧
  (∀ p ∈ st.prices, 0 ≤ p.qty) ∧
  locatedQtyMatches st ∧
  (∀ m ∈ st.materials, m.locationId = none → m.quantity = 0 ∧ liveSum st m.materialId = 0) ∧
  ((st.materials.filter (fun m => m.locationId.isSome)).map
    (fun m => (m.stockId, m.locationId, m.owner))).Nodup

/-- Boolean success test on a command result. -/
def isOkResult {α : Type} (r : Except String α) : Bool :=
  match r with
  | .ok _ => true
  | .error _ => false

instance (st : DBState) : Decidable (locatedQtyMatches st) :=
  decidable_of_iff
    (∀ m ∈ st.materials, m.locationId ≠ none → m.quantity = liveSum st m.materialId)
    Iff.rfl

instance (st : DBState) : Decidable (LedgerMatches st) :=
  decidable_of_iff (∀ p ∈ st.prices, p.qty = ledgerSumFor st p.priceId) Iff.rfl

instance (st : DBState) : Decidable (SchemaWF st) := by
  unfold SchemaWF
  infer_instance

instance (st : DBState) : Decidable (WellFormed st) := by
  unfold WellFormed
  infer_instance

/-- Concrete state for the FIFO-order scenario: material 1 holds lot 1
(qty 5 at cost 10, the older) and lot 2 (qty 5 at cost 12, the newer),
each with its creation ledger row. -/
def fifoOrderState : DBState :=
  ⟨[], [⟨1, "S1", some 1, 1, "film", "", "", 10, true, 0, 0, "Tag", false⟩],
    [⟨1, 1, 5, 10, 5⟩, ⟨2, 1, 5, 12, 5⟩],
    [⟨1, 5, "", ""⟩, ⟨2, 5, "", ""⟩], 2, 3⟩

/-- Concrete state for the failed-move scenario: material 1 (qty 5, lot 1)
at location 1 and material 2 (qty 3, lot 2) at location 2, same stock
identity and owner. -/
def moveFailState : DBState :=
  ⟨[],
    [⟨1, "S1", some 1, 1, "film", "", "", 5, true, 0, 0, "Tag", false⟩,
     ⟨2, "S1", some 2, 1, "film", "", "", 3, true, 0, 0, "Tag", false⟩],
    [⟨1, 1, 5, 10, 5⟩, ⟨2, 2, 3, 10, 3⟩],
    [⟨1, 5, "", ""⟩, ⟨2, 3, "", ""⟩], 3, 3⟩

/-- Concrete state whose aggregate quantity (10) exceeds its live-lot
total (5): the data-integrity divergence the InsufficientLots error is
specified to detect. -/
def corruptAggState : DBState :=
  ⟨[], [⟨1, "S1", some 1, 1, "film", "", "", 10, true, 0, 0, "Tag", false⟩],
    [⟨1, 1, 5, 10, 5⟩], [⟨1, 5, "", ""⟩], 2, 2⟩

/-- Concrete well-formed state: material 1 at location 1 with quantity 4
backed by lot 1 (qty 4, cost 10), one pending intake (shipping id 9,
cost 10, same stock and owner). -/
def sameLocMoveState : DBState :=
  ⟨[⟨9, 1, "S1", 10, 6, 0, 0, "", true, "film", "Tag"⟩],
    [⟨1, "S1", some 1, 1, "film", "", "", 4, true, 0, 0, "Tag", false⟩],
    [⟨1, 1, 4, 10, 4⟩], [⟨1, 4, "", ""⟩], 2, 2⟩

/-- The state left by successfully moving the full quantity of material 1
onto its own current location. -/
def afterSameLocMove : DBState :=
  (moveMaterial noFail [⟨1, 1, 4, 10, 4⟩] sameLocMoveState ⟨1, 1, 4⟩).2

/-- Concrete empty-stock state with one pending intake (shipping id 5,
cost 10), for the fresh-receive scenario. -/
def freshReceiveState : DBState :=
  ⟨[⟨5, 1, "S1", 10, 20, 0, 0, "", true, "film", "Tag"⟩], [], [], [], 1, 1⟩

theorem bumpPrices_ids (cond : PriceRow → Bool) (delta : Int) (ps : List PriceRow) :
    (bumpPrices cond delta ps).map (fun p => p.priceId) = ps.map (fun p => p.priceId) := by
  induction ps with
  | nil => rfl
  | cons p ps ih =>
      by_cases h : cond p <;> simp only [bumpPrices, List.map_cons] at ih ⊢ <;>
        simp [h, ih]

theorem bumpPrices_midCost (cond : PriceRow → Bool) (delta : Int) (ps : List PriceRow) :
    (bumpPrices cond delta ps).map (fun p => (p.materialId, p.cost)) =
      ps.map (fun p => (p.materialId, p.cost)) := by
  induction ps with
  | nil => rfl
  | cons p ps ih =>
      by_cases h : cond p <;> simp only [bumpPrices, List.map_cons] at ih ⊢ <;>
        simp [h, ih]

theorem bumpPrices_of_none (cond : PriceRow → Bool) (delta : Int) (ps : List PriceRow)
    (h : ∀ r ∈ ps, cond r = false) : bumpPrices cond delta ps = ps := by
  induction ps with
  | nil => rfl
  | cons p ps ih =>
      simp only [bumpPrices, List.map_cons] at ih ⊢
      rw [h p (by simp)]
      simp only [Bool.false_eq_true, if_false]
      rw [ih (fun r hr => h r (by simp [hr]))]

theorem find?_of_present {ps : List PriceRow} {pid : Nat}
    (h : ∃ r ∈ ps, r.priceId = pid) :
    ∃ p, ps.find? (fun r => r.priceId == pid) = some p := by
  obtain ⟨r, hr, he⟩ := h
  have hs : (ps.find? (fun r => r.priceId == pid)).isSome := by
    rw [List.find?_isSome]
    exact ⟨r, hr, by simp [he]⟩
  exact Option.isSome_iff_exists.mp hs

theorem updatePriceQty_ok {st : DBState} {pid : Nat} {delta : Int} {c : Int} {st' : DBState}
    (h : updatePriceQty st pid delta = .ok (c, st')) :
    (∃ r ∈ st.prices, r.priceId = pid) ∧
      st' = { st with prices := bumpPrices (fun r => r.priceId == pid) delta st.prices } := by
  unfold updatePriceQty at h
  cases hf : st.prices.find? (fun p => p.priceId == pid) with
  | none => rw [hf] at h; cases h
  | some p =>
      rw [hf] at h
      simp only [Except.ok.injEq, Prod.mk.injEq] at h
      refine ⟨⟨p, List.mem_of_find?_eq_some hf, ?_⟩, h.2.symm⟩
      have hp := List.find?_some hf
      simpa using hp

theorem updatePriceQty_of_present {st : DBState} {pid : Nat} (delta : Int)
    (h : ∃ r ∈ st.prices, r.priceId = pid) :
    ∃ c st', updatePriceQty st pid delta = .ok (c, st') := by
  obtain ⟨p, hf⟩ := find?_of_present h
  exact ⟨p.cost, _, by unfold updatePriceQty; rw [hf]⟩

theorem addTranscation_prices (st : DBState) (t : TransactionRow) :
    (addTranscation st t).prices = st.prices := rfl

theorem addTranscation_log (st : DBState) (t : TransactionRow) :
    (addTranscation st t).transactionsLog = st.transactionsLog ++ [t] := rfl

theorem addTranscation_incoming (st : DBState) (t : TransactionRow) :
    (addTranscation st t).incoming = st.incoming := rfl

theorem addTranscation_materials (st : DBState) (t : TransactionRow) :
    (addTranscation st t).materials = st.materials := rfl

theorem addTranscation_nextPriceId (st : DBState) (t : TransactionRow) :
    (addTranscation st t).nextPriceId = st.nextPriceId := rfl

theorem addTranscation_nextMaterialId (st : DBState) (t : TransactionRow) :
    (addTranscation st t).nextMaterialId = st.nextMaterialId := rfl

theorem upsertPrice_materials (st : DBState) (mid : Nat) (q c : Int) :
    (upsertPrice st mid q c).2.materials = st.materials := by
  unfold upsertPrice; split <;> rfl

theorem upsertPrice_incoming (st : DBState) (mid : Nat) (q c : Int) :
    (upsertPrice st mid q c).2.incoming = st.incoming := by
  unfold upsertPrice; split <;> rfl

theorem upsertPrice_log (st : DBState) (mid : Nat) (q c : Int) :
    (upsertPrice st mid q c).2.transactionsLog = st.transactionsLog := by
  unfold upsertPrice; split <;> rfl

theorem upsertPrice_nextMaterialId (st : DBState) (mid : Nat) (q c : Int) :
    (upsertPrice st mid q c).2.nextMaterialId = st.nextMaterialId := by
  unfold upsertPrice; split <;> rfl

theorem logSum_nil (pid : Nat) : logSum [] pid = 0 := rfl

theorem logSum_append (ts us : List TransactionRow) (pid : Nat) :
    logSum (ts ++ us) pid = logSum ts pid + logSum us pid := by
  unfold logSum
  rw [List.filter_append, List.map_append, List.sum_append]

theorem logSum_single (t : TransactionRow) (pid : Nat) :
    logSum [t] pid = if t.priceId = pid then t.qtyChange else 0 := by
  unfold logSum
  by_cases h : t.priceId = pid <;> simp [h]

theorem logSum_of_absent (ts : List TransactionRow) (pid : Nat)
    (h : ∀ t ∈ ts, t.priceId ≠ pid) : logSum ts pid = 0 := by
  unfold logSum
  rw [List.filter_eq_nil_iff.mpr (fun t ht => by simp [h t ht])]
  rfl

theorem qtyById_cons (p : PriceRow) (ps : List PriceRow) (x : Nat) :
    qtyById (p :: ps) x = (if p.priceId = x then p.qty else 0) + qtyById ps x := by
  unfold qtyById
  by_cases h : p.priceId = x <;> simp [h]

theorem qtyById_append (ps qs : List PriceRow) (x : Nat) :
    qtyById (ps ++ qs) x = qtyById ps x + qtyById qs x := by
  unfold qtyById
  rw [List.filter_append, List.map_append, List.sum_append]

theorem qtyById_of_absent (ps : List PriceRow) (x : Nat)
    (h : ∀ p ∈ ps, p.priceId ≠ x) : qtyById ps x = 0 := by
  unfold qtyById
  rw [List.filter_eq_nil_iff.mpr (fun p hp => by simp [h p hp])]
  rfl

theorem filter_byId_eq {ps : List PriceRow} {p : PriceRow}
    (hids : (ps.map (fun r => r.priceId)).Nodup) (hp : p ∈ ps) :
    ps.filter (fun r => r.priceId == p.priceId) = [p] := by
  induction ps with
  | nil => cases hp
  | cons q ps ih =>
      rw [List.map_cons, List.nodup_cons] at hids
      rcases List.mem_cons.mp hp with h | h
      · subst h
        rw [List.filter_cons_of_pos (by simp)]
        have hnone : ps.filter (fun r => r.priceId == p.priceId) = [] := by
          apply List.filter_eq_nil_iff.mpr
          intro r hr hbeq
          exact hids.1 (by
            have : r.priceId = p.priceId := by simpa using hbeq
            rw [← this]
            exact List.mem_map_of_mem (fun z => z.priceId) hr)
        rw [hnone]
      · have hne : q.priceId ≠ p.priceId := by
          intro he
          exact hids.1 (by
            rw [he]
            exact List.mem_map_of_mem (fun z => z.priceId) h)
        rw [List.filter_cons_of_neg (by simp [hne])]
        exact ih hids.2 h

theorem qtyById_of_mem {ps : List PriceRow} {p : PriceRow}
    (hids : (ps.map (fun r => r.priceId)).Nodup) (hp : p ∈ ps) :
    qtyById ps p.priceId = p.qty := by
  unfold qtyById
  rw [filter_byId_eq hids hp]
  simp

theorem qtyById_bump_single {cond : PriceRow → Bool} {ps : List PriceRow} {r0 : PriceRow}
    (delta : Int) (x : Nat)
    (hr : r0 ∈ ps) (hcond : cond r0 = true)
    (huniq : ∀ r ∈ ps, cond r = true → r = r0)
    (hids : (ps.map (fun r => r.priceId)).Nodup) :
    qtyById (bumpPrices cond delta ps) x =
      qtyById ps x + (if x = r0.priceId then delta else 0) := by
  induction ps with
  | nil => cases hr
  | cons p ps ih =>
      rw [List.map_cons, List.nodup_cons] at hids
      simp only [bumpPrices, List.map_cons]
      by_cases hc : cond p = true
      · have hp0 : p = r0 := huniq p (by simp) hc
        subst hp0
        have htail : ∀ r ∈ ps, cond r = false := by
          intro r hrr
          by_contra hcr
          have hre : r = p := huniq r (by simp [hrr]) (by simpa using hcr)
          subst hre
          exact hids.1 (List.mem_map_of_mem (fun z => z.priceId) hrr)
        have hbump : bumpPrices cond delta ps = ps := bumpPrices_of_none _ _ _ htail
        simp only [bumpPrices] at hbump
        rw [hc, if_pos rfl, hbump]
        show qtyById ({ p with qty := p.qty + delta } :: ps) x
          = qtyById (p :: ps) x + (if x = p.priceId then delta else 0)
        rw [qtyById_cons, qtyById_cons]
        show (if p.priceId = x then p.qty + delta else 0) + qtyById ps x
          = ((if p.priceId = x then p.qty else 0) + qtyById ps x) +
            (if x = p.priceId then delta else 0)
        by_cases hx : p.priceId = x
        · rw [if_pos hx, if_pos hx, if_pos hx.symm]
          omega
        · rw [if_neg hx, if_neg hx, if_neg (fun he => hx he.symm)]
          omega
      · have hp0 : p ≠ r0 := fun he => by rw [he] at hc; exact hc hcond
        have hr' : r0 ∈ ps := by
          rcases List.mem_cons.mp hr with h | h
          · exact absurd h.symm hp0
          · exact h
        have hcf : cond p = false := by revert hc; cases cond p <;> simp
        rw [hcf, if_neg Bool.false_ne_true]
        show qtyById (p :: bumpPrices cond delta ps) x
          = qtyById (p :: ps) x + (if x = r0.priceId then delta else 0)
        rw [qtyById_cons, qtyById_cons,
          ih hr' (fun r hrr hcr => huniq r (by simp [hrr]) hcr) hids.2]
        omega

theorem present_of_ids_eq {ps qs : List PriceRow}
    (h : qs.map (fun p => p.priceId) = ps.map (fun p => p.priceId)) {pid : Nat}
    (hp : ∃ r ∈ ps, r.priceId = pid) : ∃ r ∈ qs, r.priceId = pid := by
  obtain ⟨r, hr, he⟩ := hp
  have : pid ∈ qs.map (fun p => p.priceId) := by
    rw [h, ← he]
    exact List.mem_map_of_mem (fun z => z.priceId) hr
  obtain ⟨r', hr', he'⟩ := List.mem_map.mp this
  exact ⟨r', hr', he'⟩

theorem bound_of_ids_eq {ps qs : List PriceRow}
    (h : qs.map (fun p => p.priceId) = ps.map (fun p => p.priceId)) {n : Nat}
    (hb : ∀ p ∈ ps, p.priceId < n) : ∀ p ∈ qs, p.priceId < n := by
  intro p hp
  have : p.priceId ∈ ps.map (fun z => z.priceId) := by
    rw [← h]
    exact List.mem_map_of_mem (fun z => z.priceId) hp
  obtain ⟨r, hr, he⟩ := List.mem_map.mp this
  rw [← he]
  exact hb r hr

theorem ledgerMatches_congr {st st' : DBState} (hp : st'.prices = st.prices)
    (hl : st'.transactionsLog = st.transactionsLog) (h : LedgerMatches st) :
    LedgerMatches st' := by
  intro p hmem
  rw [hp] at hmem
  unfold ledgerSumFor
  rw [hl]
  exact h p hmem

theorem lotSchema_congr {st st' : DBState} (hp : st'.prices = st.prices)
    (hl : st'.transactionsLog = st.transactionsLog)
    (hn : st'.nextPriceId = st.nextPriceId) (h : LotSchema st) : LotSchema st' := by
  obtain ⟨h1, h2, h3, h4⟩ := h
  refine ⟨by rw [hp]; exact h1, by rw [hp]; exact h2, ?_, ?_⟩
  · rw [hp, hn]; exact h3
  · rw [hl, hn]; exact h4

theorem eq_of_same_id {ps : List PriceRow}
    (hids : (ps.map (fun r => r.priceId)).Nodup) {a b : PriceRow}
    (ha : a ∈ ps) (hb : b ∈ ps) (he : a.priceId = b.priceId) : a = b := by
  have hf := filter_byId_eq hids hb
  have ha' : a ∈ ps.filter (fun r => r.priceId == b.priceId) :=
    List.mem_filter.mpr ⟨ha, by simp [he]⟩
  rw [hf] at ha'
  simpa using ha'

theorem fifoLoop_frame (iter : List PriceRow) :
    ∀ (q : Int) (n j : String) (st : DBState) (rs : List (Int × Int)) (st' : DBState),
      fifoLoop iter q n j st = .ok (rs, st') →
      st'.materials = st.materials ∧ st'.incoming = st.incoming ∧
      st'.nextMaterialId = st.nextMaterialId ∧ st'.nextPriceId = st.nextPriceId ∧
      st'.prices.map (fun p => p.priceId) = st.prices.map (fun p => p.priceId) ∧
      st'.prices.map (fun p => (p.materialId, p.cost)) =
        st.prices.map (fun p => (p.materialId, p.cost)) := by
  induction iter with
  | nil =>
      intro q n j st rs st' h
      simp only [fifoLoop, Except.ok.injEq, Prod.mk.injEq] at h
      rw [← h.2]
      exact ⟨rfl, rfl, rfl, rfl, rfl, rfl⟩
  | cons p rest ih =>
      intro q n j st rs st' h
      simp only [fifoLoop] at h
      by_cases hle : q ≤ p.qty
      · rw [if_pos hle] at h
        split at h
        next e heq => cases h
        next c0 st1 heq =>
          simp only [Except.ok.injEq, Prod.mk.injEq] at h
          rw [← h.2, updatePriceQty_ok heq |>.2]
          exact ⟨rfl, rfl, rfl, rfl, bumpPrices_ids _ _ _, bumpPrices_midCost _ _ _⟩
      · rw [if_neg hle] at h
        split at h
        next e heq => cases h
        next c0 st1 heq =>
          split at h
          next e2 heq2 => cases h
          next rs2 st2' heq2 =>
            simp only [Except.ok.injEq, Prod.mk.injEq] at h
            obtain ⟨h6a, h6b, h6c, h6d, h6e, h6f⟩ := ih _ _ _ _ _ _ heq2
            rw [updatePriceQty_ok heq |>.2] at h6a h6b h6c h6d h6e h6f
            rw [← h.2]
            refine ⟨h6a, h6b, h6c, h6d, ?_, ?_⟩
            · rw [h6e]; exact bumpPrices_ids _ _ _
            · rw [h6f]; exact bumpPrices_midCost _ _ _

theorem fifoLoop_qty_log (iter : List PriceRow) :
    ∀ (q : Int) (n j : String) (st : DBState) (rs : List (Int × Int)) (st' : DBState),
      (st.prices.map (fun p => p.priceId)).Nodup →
      fifoLoop iter q n j st = .ok (rs, st') →
      ∃ ts, st'.transactionsLog = st.transactionsLog ++ ts ∧
        (∀ t ∈ ts, ∃ r ∈ st.prices, r.priceId = t.priceId) ∧
        (∀ x, qtyById st'.prices x = qtyById st.prices x + logSum ts x) := by
  induction iter with
  | nil =>
      intro q n j st rs st' _ h
      simp only [fifoLoop, Except.ok.injEq, Prod.mk.injEq] at h
      refine ⟨[], by rw [← h.2, List.append_nil], by simp, ?_⟩
      intro x
      rw [← h.2, logSum_nil]
      omega
  | cons p rest ih =>
      intro q n j st rs st' hids h
      simp only [fifoLoop] at h
      have hbump_one : ∀ (delta : Int) (st1 : DBState) (c0 : Int),
          updatePriceQty st p.priceId delta = .ok (c0, st1) →
          ∀ x, qtyById st1.prices x =
            qtyById st.prices x + (if x = p.priceId then delta else 0) := by
        intro delta st1 c0 hu x
        obtain ⟨⟨r, hrmem, hrid⟩, hshape⟩ := updatePriceQty_ok hu
        have hmain := @qtyById_bump_single
          (fun z => z.priceId == p.priceId) st.prices r delta x hrmem (by simp [hrid])
          (fun z hz hcz => eq_of_same_id hids hz hrmem (by
            have : z.priceId = p.priceId := by simpa using hcz
            rw [this, hrid]))
          hids
        rw [hshape]
        simp only
        rw [hmain, hrid]
      by_cases hle : q ≤ p.qty
      · rw [if_pos hle] at h
        split at h
        next e heq => cases h
        next c0 st1 heq =>
          simp only [Except.ok.injEq, Prod.mk.injEq] at h
          obtain ⟨⟨r, hrmem, hrid⟩, hshape⟩ := updatePriceQty_ok heq
          refine ⟨[⟨p.priceId, -q, n, j⟩], ?_, ?_, ?_⟩
          · rw [← h.2, addTranscation_log, hshape]
          · intro t ht
            simp only [List.mem_singleton] at ht
            subst ht
            exact ⟨r, hrmem, hrid⟩
          · intro x
            rw [← h.2, addTranscation_prices, hbump_one _ _ _ heq x, logSum_single]
            by_cases hx : x = p.priceId
            · rw [if_pos hx, if_pos hx.symm]
            · rw [if_neg hx, if_neg (fun he => hx he.symm)]
      · rw [if_neg hle] at h
        split at h
        next e heq => cases h
        next c0 st1 heq =>
          split at h
          next e2 heq2 => cases h
          next rs2 st2' heq2 =>
            simp only [Except.ok.injEq, Prod.mk.injEq] at h
            obtain ⟨⟨r, hrmem, hrid⟩, hshape⟩ := updatePriceQty_ok heq
            have hids1 : ((addTranscation st1 ⟨p.priceId, -p.qty, n, j⟩).prices.map
                (fun z => z.priceId)).Nodup := by
              rw [addTranscation_prices, hshape]
              simp only
              rw [bumpPrices_ids]
              exact hids
            obtain ⟨ts', hlog', hpres', hqty'⟩ := ih _ _ _ _ _ _ hids1 heq2
            refine ⟨⟨p.priceId, -p.qty, n, j⟩ :: ts', ?_, ?_, ?_⟩
            · rw [← h.2, hlog', addTranscation_log, hshape, List.append_assoc]
              rfl
            · intro t ht
              rcases List.mem_cons.mp ht with hth | hth
              · subst hth
                exact ⟨r, hrmem, hrid⟩
              · obtain ⟨r', hr', he'⟩ := hpres' t hth
                rw [addTranscation_prices, hshape] at hr'
                simp only at hr'
                exact present_of_ids_eq (bumpPrices_ids _ _ _).symm ⟨r', hr', he'⟩
            · intro x
              rw [← h.2, hqty' x, addTranscation_prices, hbump_one _ _ _ heq x]
              have hsplit : logSum (⟨p.priceId, -p.qty, n, j⟩ :: ts') x =
                  (if (⟨p.priceId, -p.qty, n, j⟩ : TransactionRow).priceId = x
                    then -p.qty else 0) + logSum ts' x := by
                rw [← List.singleton_append, logSum_append, logSum_single]
              rw [hsplit]
              by_cases hx : x = p.priceId
              · rw [if_pos hx, if_pos (by simp [hx])]
                omega
              · rw [if_neg hx, if_neg (by simp only; exact fun he => hx he.symm)]
                omega

theorem fifoLoop_nonneg (iter : List PriceRow) :
    ∀ (q : Int) (n j : String) (st : DBState) (rs : List (Int × Int)) (st' : DBState),
      (∀ p ∈ iter, p ∈ st.prices) →
      (iter.map (fun p => p.priceId)).Nodup →
      (st.prices.map (fun p => p.priceId)).Nodup →
      (∀ p ∈ st.prices, 0 ≤ p.qty) →
      fifoLoop iter q n j st = .ok (rs, st') →
      ∀ p ∈ st'.prices, 0 ≤ p.qty := by
  induction iter with
  | nil =>
      intro q n j st rs st' _ _ _ hnn h
      simp only [fifoLoop, Except.ok.injEq, Prod.mk.injEq] at h
      rw [← h.2]
      exact hnn
  | cons p rest ih =>
      intro q n j st rs st' hmem hiter hids hnn h
      rw [List.map_cons, List.nodup_cons] at hiter
      have hpmem : p ∈ st.prices := hmem p (by simp)
      have hbumped : ∀ (delta : Int), delta + p.qty ≥ 0 →
          ∀ z ∈ bumpPrices (fun r => r.priceId == p.priceId) delta st.prices, 0 ≤ z.qty := by
        intro delta hdel z hz
        obtain ⟨w, hw, hwe⟩ := List.mem_map.mp hz
        by_cases hcw : w.priceId = p.priceId
        · have hwp : w = p := eq_of_same_id hids hw hpmem hcw
          subst hwp
          rw [← hwe]
          simp [hcw]
          omega
        · rw [← hwe]
          simp [hcw]
          exact hnn w hw
      have hrestmem : ∀ (delta : Int) (st1 : DBState),
          st1 = { st with prices := bumpPrices (fun r => r.priceId == p.priceId) delta st.prices } →
          ∀ z ∈ rest, z ∈ (addTranscation st1 ⟨p.priceId, delta, n, j⟩).prices := by
        intro delta st1 hsh z hz
        rw [addTranscation_prices, hsh]
        have hzmem : z ∈ st.prices := hmem z (by simp [hz])
        have hzne : (z.priceId == p.priceId) = false := by
          simp only [beq_eq_false_iff_ne, ne_eq]
          intro he
          exact hiter.1 (by rw [← he]; exact List.mem_map_of_mem (fun w => w.priceId) hz)
        simp only
        exact List.mem_map.mpr ⟨z, hzmem, by simp [hzne]⟩
      simp only [fifoLoop] at h
      by_cases hle : q ≤ p.qty
      · rw [if_pos hle] at h
        split at h
        next e heq => cases h
        next c0 st1 heq =>
          simp only [Except.ok.injEq, Prod.mk.injEq] at h
          obtain ⟨_, hshape⟩ := updatePriceQty_ok heq
          rw [← h.2, addTranscation_prices, hshape]
          intro z hz
          exact hbumped (-q) (by omega) z hz
      · rw [if_neg hle] at h
        split at h
        next e heq => cases h
        next c0 st1 heq =>
          split at h
          next e2 heq2 => cases h
          next rs2 st2' heq2 =>
            simp only [Except.ok.injEq, Prod.mk.injEq] at h
            obtain ⟨_, hshape⟩ := updatePriceQty_ok heq
            rw [← h.2]
            refine ih _ _ _ _ _ _ (hrestmem _ _ hshape) hiter.2 ?_ ?_ heq2
            · rw [addTranscation_prices, hshape]
              simp only
              rw [bumpPrices_ids]
              exact hids
            · intro z hz
              rw [addTranscation_prices, hshape] at hz
              exact hbumped (-p.qty) (by omega) z hz

theorem fifoLoop_consumes_all (iter : List PriceRow) :
    ∀ (q : Int) (n j : String) (st : DBState),
      (∀ p ∈ iter, ∃ r ∈ st.prices, r.priceId = p.priceId) →
      (∀ p ∈ iter, 0 < p.qty) →
      ((iter.map (fun p => p.qty)).sum < q) →
      ∃ rs st', fifoLoop iter q n j st = .ok (rs, st') ∧
        rs.map (fun z => z.1) = iter.map (fun p => p.qty) := by
  induction iter with
  | nil =>
      intro q n j st _ _ _
      exact ⟨[], st, rfl, rfl⟩
  | cons p rest ih =>
      intro q n j st hpres hpos hsum
      rw [List.map_cons, List.sum_cons] at hsum
      have hrest_nonneg : 0 ≤ (rest.map (fun p => p.qty)).sum := by
        apply List.sum_nonneg
        intro x hx
        obtain ⟨z, hz, hze⟩ := List.mem_map.mp hx
        rw [← hze]
        exact le_of_lt (hpos z (by simp [hz]))
      have hgt : ¬q ≤ p.qty := by omega
      obtain ⟨c0, st1, hu⟩ := updatePriceQty_of_present (-p.qty) (hpres p (by simp))
      obtain ⟨_, hshape⟩ := updatePriceQty_ok hu
      have hpres2 : ∀ z ∈ rest,
          ∃ r ∈ (addTranscation st1 ⟨p.priceId, -p.qty, n, j⟩).prices,
            r.priceId = z.priceId := by
        intro z hz
        rw [addTranscation_prices, hshape]
        simp only
        exact present_of_ids_eq (bumpPrices_ids _ _ _) (hpres z (by simp [hz]))
      obtain ⟨rs2, st2', hrec, hmap⟩ := ih (q - p.qty) n j
        (addTranscation st1 ⟨p.priceId, -p.qty, n, j⟩) hpres2
        (fun z hz => hpos z (by simp [hz])) (by omega)
      refine ⟨(p.qty, c0) :: rs2, st2', ?_, ?_⟩
      · simp only [fifoLoop]
        rw [if_neg hgt]
        simp only [hu, hrec]
      · rw [List.map_cons, List.map_cons, hmap]

theorem fifoLoop_preserves_lotSchema (iter : List PriceRow) (q : Int) (n j : String)
    (st : DBState) (rs : List (Int × Int)) (st' : DBState)
    (hS : LotSchema st) (h : fifoLoop iter q n j st = .ok (rs, st')) :
    LotSchema st' := by
  obtain ⟨h1, h2, h3, h4⟩ := hS
  obtain ⟨_, _, _, hnx, hids, hmc⟩ := fifoLoop_frame iter q n j st rs st' h
  obtain ⟨ts, hlog, hpres, _⟩ := fifoLoop_qty_log iter q n j st rs st' h1 h
  refine ⟨by rw [hids]; exact h1, by rw [hmc]; exact h2, ?_, ?_⟩
  · rw [hnx]
    exact bound_of_ids_eq hids h3
  · rw [hnx, hlog]
    intro t ht
    rcases List.mem_append.mp ht with hta | htb
    · exact h4 t hta
    · obtain ⟨r, hr, he⟩ := hpres t htb
      rw [← he]
      exact h3 r hr

theorem fifoLoop_preserves_ledger (iter : List PriceRow) (q : Int) (n j : String)
    (st : DBState) (rs : List (Int × Int)) (st' : DBState)
    (hids : (st.prices.map (fun p => p.priceId)).Nodup)
    (hK : LedgerMatches st) (h : fifoLoop iter q n j st = .ok (rs, st')) :
    LedgerMatches st' := by
  obtain ⟨_, _, _, _, hidseq, _⟩ := fifoLoop_frame iter q n j st rs st' h
  obtain ⟨ts, hlog, _, hqty⟩ := fifoLoop_qty_log iter q n j st rs st' hids h
  have hids' : (st'.prices.map (fun p => p.priceId)).Nodup := by
    rw [hidseq]; exact hids
  intro p hp
  have h1 : qtyById st'.prices p.priceId = p.qty := qtyById_of_mem hids' hp
  obtain ⟨p0, hp0, hp0e⟩ : ∃ r ∈ st.prices, r.priceId = p.priceId :=
    present_of_ids_eq (Eq.symm hidseq) ⟨p, hp, rfl⟩
  have h2 : qtyById st.prices p.priceId = p0.qty := by
    rw [← hp0e]
    exact qtyById_of_mem hids hp0
  have h3 : p0.qty = ledgerSumFor st p0.priceId := hK p0 hp0
  unfold ledgerSumFor at h3 ⊢
  rw [hlog, logSum_append, ← h1, hqty p.priceId, h2, h3, hp0e]

theorem getMaterialById_ok {st : DBState} {mid : Nat} {curr : MaterialRow}
    (h : getMaterialById st mid = .ok curr) :
    curr ∈ st.materials ∧ curr.materialId = mid := by
  unfold getMaterialById at h
  cases hf : st.materials.find? (fun m => m.materialId == mid) with
  | none => rw [hf] at h; cases h
  | some m =>
      rw [hf] at h
      simp only [Except.ok.injEq] at h
      subst h
      exact ⟨List.mem_of_find?_eq_some hf, by simpa using List.find?_some hf⟩

theorem mem_id_map (f : MaterialRow → MaterialRow)
    (hf : ∀ m, (f m).materialId = m.materialId)
    {ms : List MaterialRow} {midv : Nat} (h : ∃ m ∈ ms, m.materialId = midv) :
    ∃ m ∈ ms.map f, m.materialId = midv := by
  obtain ⟨m, hm, he⟩ := h
  exact ⟨f m, List.mem_map_of_mem f hm, by rw [hf m, he]⟩

theorem retireSource_mem (midv : Nat) (w : DBState)
    (h : ∃ m ∈ w.materials, m.materialId = midv) :
    ∃ m ∈ (retireSource midv w).materials, m.materialId = midv := by
  unfold retireSource
  simp only
  exact mem_id_map _ (fun m => by split <;> rfl) h

theorem retireSource_retired (midv : Nat) (w : DBState) :
    ∀ m ∈ (retireSource midv w).materials, m.materialId = midv →
      m.locationId = none ∧ m.quantity = 0 := by
  intro m hm hid
  unfold retireSource at hm
  simp only at hm
  obtain ⟨a, ha, hae⟩ := List.mem_map.mp hm
  by_cases h : (a.materialId == midv) = true
  · rw [if_pos h] at hae
    rw [← hae]
    exact ⟨rfl, rfl⟩
  · rw [if_neg h] at hae
    subst hae
    exact absurd (by simp [hid]) h

theorem upsertFold_materials (l : List (Int × Int)) (mid : Nat) (n j : String) :
    ∀ (w : DBState),
      (l.foldl (fun (w : DBState) (rp : Int × Int) =>
        addTranscation (upsertPrice w mid rp.1 rp.2).2
          ⟨(upsertPrice w mid rp.1 rp.2).1, rp.1, n, j⟩) w).materials = w.materials := by
  induction l with
  | nil => intro w; rfl
  | cons rp l ih =>
      intro w
      rw [List.foldl_cons, ih]
      show (upsertPrice w mid rp.1 rp.2).2.materials = w.materials
      exact upsertPrice_materials _ _ _ _

/-- C1: the claim says FIFO consumption walks the live lots in
identity-ascending (arrival) order, so that for lots cost=10(qty 5) then
cost=12(qty 5), Remove(qty=7) consumes 5 units at cost 10 then 2 at cost
12.  The code ranges over a Go map (unspecified order): under the legal
iteration order that visits lot 2 first — a permutation of the rows
`getMaterialPrices` returns — it consumes 5 units at cost 12 and then 2
at cost 10, not the claimed pairs. -/
theorem fifo_map_iteration_breaks_oldest_first :
    ([⟨2, 1, 5, 12, 5⟩, ⟨1, 1, 5, 10, 5⟩] : List PriceRow).Perm
      (getMaterialPrices fifoOrderState 1) ∧
    (∃ st', removePricesFIFO [⟨2, 1, 5, 12, 5⟩, ⟨1, 1, 5, 10, 5⟩] 7
      ("n") ("j") fifoOrderState = .ok ([(5, 12), (2, 10)], st')) ∧
    ([((5 : Int), (12 : Int)), (2, 10)] ≠ [(5, 10), (2, 12)]) := by
  exact ⟨by decide, ⟨_, rfl⟩, by decide⟩

/-- C2: Move is not atomic.  Moving 2 units of material 1 (at location 1,
quantity 5) to location 2 (holding material 2, quantity 3) while the
destination lot upsert fails returns an error, yet the committed state
keeps the destination material credited to quantity 5: the destination
UPDATE ran on the raw db handle outside the transaction, so the rollback
restored the source, the lots and the ledger but not the destination —
the failed Move partially commits. -/
theorem failed_move_leaves_destination_credited :
    isOkResult (moveMaterial ⟨false, true⟩ [⟨1, 1, 5, 10, 5⟩] moveFailState ⟨1, 2, 2⟩).1
      = false ∧
    (moveMaterial ⟨false, true⟩ [⟨1, 1, 5, 10, 5⟩] moveFailState ⟨1, 2, 2⟩).2
      ≠ moveFailState ∧
    (moveMaterial ⟨false, true⟩ [⟨1, 1, 5, 10, 5⟩] moveFailState ⟨1, 2, 2⟩).2.materials =
      [⟨1, "S1", some 1, 1, "film", "", "", 5, true, 0, 0, "Tag", false⟩,
       ⟨2, "S1", some 2, 1, "film", "", "", 5, true, 0, 0, "Tag", false⟩] ∧
    (moveMaterial ⟨false, true⟩ [⟨1, 1, 5, 10, 5⟩] moveFailState ⟨1, 2, 2⟩).2.prices =
      moveFailState.prices ∧
    (moveMaterial ⟨false, true⟩ [⟨1, 1, 5, 10, 5⟩] moveFailState ⟨1, 2, 2⟩).2.transactionsLog =
      moveFailState.transactionsLog := by
  exact ⟨rfl, by decide, rfl, rfl, rfl⟩

/-- C3 counterexample: with live lots totalling 5 and a request of 7
(the aggregate quantity reads 10, so the quantity guard passes), the
claim says the command fails with InsufficientLots, rolls back and
consumes nothing.  The code instead succeeds: it silently drains the
lone lot to 0, commits the aggregate decrement to 3 and reports no
error. -/
theorem remove_beyond_lots_succeeds_silently :
    ([⟨1, 1, 5, 10, 5⟩] : List PriceRow).Perm (getMaterialPrices corruptAggState 1) ∧
    liveSum corruptAggState 1 < 7 ∧
    isOkResult (removeMaterial [⟨1, 1, 5, 10, 5⟩] corruptAggState ⟨1, 7, "JT"⟩).1 = true ∧
    (removeMaterial [⟨1, 1, 5, 10, 5⟩] corruptAggState ⟨1, 7, "JT"⟩).2.prices =
      [⟨1, 1, 0, 10, 5⟩] ∧
    (removeMaterial [⟨1, 1, 5, 10, 5⟩] corruptAggState ⟨1, 7, "JT"⟩).2.materials =
      [⟨1, "S1", some 1, 1, "film", "", "", 3, true, 0, 0, "Tag", false⟩] := by
  exact ⟨by decide, by decide, rfl, rfl, rfl⟩

/-- C4: the located-quantity invariant is not preserved by every
successful command.  Starting from the fully well-formed
`sameLocMoveState`, a successful Move of the full quantity 4 of material
1 onto its own location retires the material while restocking its lot
(the destination upsert re-adds the FIFO-consumed units before the
deferred retirement runs), leaving an unplaced record with a live lot of
4.  The invariant still holds there (no located record), yet the next
successful Receive of 6 units reuses that null-location record, sets its
quantity to 6 and upserts onto the stale lot, producing a located record
with quantity 6 whose live lots sum to 10. -/
theorem receive_breaks_located_quantity_invariant :
    WellFormed sameLocMoveState ∧
    ([⟨1, 1, 4, 10, 4⟩] : List PriceRow).Perm (getMaterialPrices sameLocMoveState 1) ∧
    isOkResult (moveMaterial noFail [⟨1, 1, 4, 10, 4⟩] sameLocMoveState ⟨1, 1, 4⟩).1 = true ∧
    locatedQtyMatches afterSameLocMove ∧
    isOkResult (createMaterial afterSameLocMove ⟨9, 2, 6, ""⟩).1 = true ∧
    ¬ locatedQtyMatches (createMaterial afterSameLocMove ⟨9, 2, 6, ""⟩).2 := by
  exact ⟨by decide, by decide, rfl, by decide, rfl, by decide⟩

/-- C5: a successful Move does not always conserve the total located
stock of its stock-identity and owner.  Moving the full quantity 4 of
material 1 onto its own current location succeeds, but the raw-handle
destination UPDATE credits the very row that the deferred retirement
then zeroes, so the located total for (S1, Tag) drops from 4 to 0. -/
theorem same_location_move_destroys_stock :
    WellFormed sameLocMoveState ∧
    ([⟨1, 1, 4, 10, 4⟩] : List PriceRow).Perm (getMaterialPrices sameLocMoveState 1) ∧
    isOkResult (moveMaterial noFail [⟨1, 1, 4, 10, 4⟩] sameLocMoveState ⟨1, 1, 4⟩).1 = true ∧
    stockTotal sameLocMoveState "S1" "Tag" = 4 ∧
    stockTotal afterSameLocMove "S1" "Tag" = 0 := by
  exact ⟨by decide, by decide, rfl, by decide, by decide⟩

/-- C3 amended claim: when the requested quantity strictly exceeds the
total live-lot quantity, FIFO consumption does not fail with any
InsufficientLots error — no such error exists in the code.  It returns
success, silently consuming exactly the available total (every live lot
drained), which is strictly less than what was requested; the enclosing
command commits. -/
theorem insufficient_lots_consume_all_ok
    (st : DBState) (mid : Nat) (q : Int) (iteration : List PriceRow) (n j : String)
    (hperm : iteration.Perm (getMaterialPrices st mid))
    (hq : liveSum st mid < q) :
    ∃ rs st', removePricesFIFO iteration q n j st = .ok (rs, st') ∧
      (rs.map (fun z => z.1)).sum = liveSum st mid ∧
      (rs.map (fun z => z.1)).sum < q := by
  have hsum : (iteration.map (fun p => p.qty)).sum = liveSum st mid := by
    unfold liveSum
    exact List.Perm.sum_eq (List.Perm.map _ hperm)
  have hpres : ∀ p ∈ iteration, ∃ r ∈ st.prices, r.priceId = p.priceId := by
    intro p hp
    exact ⟨p, List.mem_of_mem_filter (hperm.mem_iff.mp hp), rfl⟩
  have hpos : ∀ p ∈ iteration, 0 < p.qty := by
    intro p hp
    have hpred := List.of_mem_filter (hperm.mem_iff.mp hp)
    simp only [Bool.and_eq_true, decide_eq_true_eq] at hpred
    exact hpred.2
  obtain ⟨rs, st', hrun, hmap⟩ :=
    fifoLoop_consumes_all iteration q n j st hpres hpos (by omega)
  exact ⟨rs, st', hrun, by rw [hmap, hsum], by rw [hmap, hsum]; omega⟩

/-- Witness for the amended C3 theorem: requesting 7 against a lone live
lot of 5 returns success with exactly 5 consumed. -/
theorem insufficient_lots_consume_all_ok_witness :
    ∃ rs st',
      removePricesFIFO [⟨1, 1, 5, 10, 5⟩] 7 ("n") ("j") corruptAggState = .ok (rs, st') ∧
      (rs.map (fun z => z.1)).sum = liveSum corruptAggState 1 ∧
      (rs.map (fun z => z.1)).sum < 7 :=
  insufficient_lots_consume_all_ok corruptAggState 1 7 [⟨1, 1, 5, 10, 5⟩] ("n") ("j")
    (by decide) (by decide)

/-- C10: FIFO consumption never drives a lot negative: each visited lot
loses the remaining amount when it fits (at most the lot's quantity) or
its entire quantity, so, whatever the requested quantity and whatever
legal map-iteration order, all lot quantities stay nonnegative. -/
theorem fifo_consumption_keeps_lots_nonnegative
    (st : DBState) (mid : Nat) (q : Int) (iteration : List PriceRow) (n j : String)
    (rs : List (Int × Int)) (st' : DBState)
    (hperm : iteration.Perm (getMaterialPrices st mid))
    (hids : (st.prices.map (fun p => p.priceId)).Nodup)
    (hnn : ∀ p ∈ st.prices, 0 ≤ p.qty)
    (hrun : removePricesFIFO iteration q n j st = .ok (rs, st')) :
    ∀ p ∈ st'.prices, 0 ≤ p.qty := by
  have hmem : ∀ p ∈ iteration, p ∈ st.prices := fun p hp =>
    List.mem_of_mem_filter (hperm.mem_iff.mp hp)
  have hsub : (getMaterialPrices st mid).Sublist st.prices := List.filter_sublist _
  have h1 : ((getMaterialPrices st mid).map (fun p => p.priceId)).Nodup :=
    List.Nodup.sublist (List.Sublist.map _ hsub) hids
  have hiterids : (iteration.map (fun p => p.priceId)).Nodup :=
    ((hperm.map _).nodup_iff).mpr h1
  exact fifoLoop_nonneg iteration q n j st rs st' hmem hiterids hids hnn hrun

/-- Witness for the C10 theorem: in the FIFO-order scenario the fully
drained lot row of the resulting state is still nonnegative. -/
theorem fifo_consumption_keeps_lots_nonnegative_witness :
    (0 : Int) ≤ (⟨2, 1, 0, 12, 5⟩ : PriceRow).qty :=
  fifo_consumption_keeps_lots_nonnegative fifoOrderState 1 7
    [⟨2, 1, 5, 12, 5⟩, ⟨1, 1, 5, 10, 5⟩] ("n") ("j") [(5, 12), (2, 10)]
    (⟨[], [⟨1, "S1", some 1, 1, "film", "", "", 10, true, 0, 0, "Tag", false⟩],
      [⟨1, 1, 3, 10, 5⟩, ⟨2, 1, 0, 12, 5⟩],
      [⟨1, 5, "", ""⟩, ⟨2, 5, "", ""⟩, ⟨2, -5, "n", "j"⟩, ⟨1, -2, "n", "j"⟩],
      2, 3⟩ : DBState)
    (by decide) (by decide) (by decide) rfl ⟨2, 1, 0, 12, 5⟩ (by decide)

/-- C6: a Move or Remove requesting strictly more than the source
material's current quantity fails with the quantity error, whose message
carries both the requested and the actual value, and returns the state
untouched — no partial application. -/
theorem excess_quantity_fails_without_state_change
    (st : DBState) (fs : FailSpec) (iter1 iter2 : List PriceRow)
    (mid locId : Nat) (q : Int) (jt : String) (curr : MaterialRow)
    (hfind : getMaterialById st mid = .ok curr)
    (hlt : curr.quantity < q) :
    moveMaterial fs iter1 st ⟨mid, locId, q⟩ =
      (.error ("The moving quantity (" ++ toString q ++
        ") is more than the actual one (" ++ toString curr.quantity ++ ")"), st) ∧
    removeMaterial iter2 st ⟨mid, q, jt⟩ =
      (.error ("The removing quantity (" ++ toString q ++
        ") is more than the actual one (" ++ toString curr.quantity ++ ")"), st) := by
  constructor
  · simp only [moveMaterial, hfind]
    rw [if_pos hlt]
  · simp only [removeMaterial, hfind]
    rw [if_pos hlt]

/-- Witness for the C6 theorem: requesting 11 of material 1 (quantity 10)
fails both ways with the message naming 11 and 10, state unchanged. -/
theorem excess_quantity_fails_without_state_change_witness :
    moveMaterial noFail [] corruptAggState ⟨1, 2, 11⟩ =
      (.error ("The moving quantity (" ++ toString (11 : Int) ++
        ") is more than the actual one (" ++ toString (10 : Int) ++ ")"), corruptAggState) ∧
    removeMaterial [] corruptAggState ⟨1, 11, "JT"⟩ =
      (.error ("The removing quantity (" ++ toString (11 : Int) ++
        ") is more than the actual one (" ++ toString (10 : Int) ++ ")"), corruptAggState) :=
  excess_quantity_fails_without_state_change corruptAggState noFail [] [] 1 2 11 "JT"
    ⟨1, "S1", some 1, 1, "film", "", "", 10, true, 0, 0, "Tag", false⟩ rfl (by decide)

theorem moveDest_exact_retires (fs : FailSpec) (curr : MaterialRow) (inp : MoveInput)
    (st0 w2 : DBState) (removed : List (Int × Int))
    (hex : (curr.quantity == inp.qty) = true)
    (hsrc : ∃ m ∈ w2.materials, m.materialId = curr.materialId)
    (hok : isOkResult (moveDest fs curr inp st0 w2 removed).1 = true) :
    (∃ m ∈ (moveDest fs curr inp st0 w2 removed).2.materials,
      m.materialId = curr.materialId) ∧
    (∀ m ∈ (moveDest fs curr inp st0 w2 removed).2.materials,
      m.materialId = curr.materialId → m.locationId = none ∧ m.quantity = 0) := by
  simp only [moveDest] at hok ⊢
  by_cases hfd : fs.failDestUpdate = true
  · rw [if_pos hfd] at hok
    simp [isOkResult] at hok
  · rw [if_neg hfd] at hok ⊢
    by_cases hfu : fs.failDestUpsert = true
    · rw [if_pos hfu] at hok
      simp [isOkResult] at hok
    · rw [if_neg hfu] at hok ⊢
      dsimp only
      rw [if_pos hex]
      refine ⟨retireSource_mem _ _ ?_,
        fun m hm hi => retireSource_retired _ _ m hm hi⟩
      rw [upsertFold_materials]
      by_cases hfound :
          (lastScannedId (st0.materials.filter (fun m =>
            m.stockId == curr.stockId && m.locationId == some inp.locationId &&
              m.owner == curr.owner)) != 0) = true
      · rw [if_pos hfound]
        dsimp only
        exact mem_id_map _ (fun m => by split <;> rfl) hsrc
      · rw [if_neg hfound]
        dsimp only
        have h1 : ∃ m ∈ w2.materials.map
            (fun m => if m.stockId == curr.stockId &&
                m.locationId == some inp.locationId && m.owner == curr.owner
              then { m with quantity := m.quantity + inp.qty } else m),
            m.materialId = curr.materialId :=
          mem_id_map _ (fun m => by split <;> rfl) hsrc
        obtain ⟨m, hm, he⟩ := h1
        exact ⟨m, List.mem_append_left _ hm, he⟩

/-- C7: a Move or Remove of exactly the source material's current
quantity, when it completes successfully, retires the source record:
in the committed state the record carrying the source's material id has a
null location and quantity 0 — never a zero-quantity record at a
non-null location. -/
theorem exact_quantity_retires_source
    (st : DBState) (fs : FailSpec) (iter1 iter2 : List PriceRow)
    (mid locId : Nat) (q : Int) (jt : String) (curr : MaterialRow)
    (hfind : getMaterialById st mid = .ok curr)
    (hexact : curr.quantity = q) :
    (isOkResult (moveMaterial fs iter1 st ⟨mid, locId, q⟩).1 = true →
      (∃ m ∈ (moveMaterial fs iter1 st ⟨mid, locId, q⟩).2.materials, m.materialId = mid) ∧
      (∀ m ∈ (moveMaterial fs iter1 st ⟨mid, locId, q⟩).2.materials,
        m.materialId = mid → m.locationId = none ∧ m.quantity = 0)) ∧
    (isOkResult (removeMaterial iter2 st ⟨mid, q, jt⟩).1 = true →
      (∃ m ∈ (removeMaterial iter2 st ⟨mid, q, jt⟩).2.materials, m.materialId = mid) ∧
      (∀ m ∈ (removeMaterial iter2 st ⟨mid, q, jt⟩).2.materials,
        m.materialId = mid → m.locationId = none ∧ m.quantity = 0)) := by
  obtain ⟨hcm, hcid⟩ := getMaterialById_ok hfind
  have hsrc : ∃ m ∈ st.materials, m.materialId = mid := ⟨curr, hcm, hcid⟩
  constructor
  · simp only [moveMaterial, hfind]
    split
    next hlt => exact absurd (show curr.quantity < q from hlt) (by omega)
    next hlt =>
      split
      next e heq =>
        split at heq
        next hps => exact absurd (show q < curr.quantity from hps) (by omega)
        next hps => cases heq
      next w1 heq =>
        split at heq
        next hps => exact absurd (show q < curr.quantity from hps) (by omega)
        next hps =>
          simp only [Except.ok.injEq] at heq
          subst heq
          split
          next e heq2 => intro hok; simp [isOkResult] at hok
          next removedPrices w2 heq2 =>
            intro hok
            have hw2 : w2.materials = st.materials :=
              (fifoLoop_frame iter1 q _ _ st removedPrices w2 heq2).1
            have hsrc2 : ∃ m ∈ w2.materials, m.materialId = curr.materialId := by
              rw [hw2, hcid]
              exact hsrc
            have hres := moveDest_exact_retires fs curr ⟨mid, locId, q⟩ st w2
              removedPrices (by simp [hexact]) hsrc2 hok
            rw [hcid] at hres
            exact hres
  · simp only [removeMaterial, hfind]
    split
    next hlt => exact absurd (show curr.quantity < q from hlt) (by omega)
    next hlt =>
      split
      next e heq => intro hok; simp [isOkResult] at hok
      next rs2 w2 heq =>
        intro _
        rw [if_pos (show (curr.quantity == q) = true by simp [hexact])] at heq
        have hw2 : w2.materials = (retireSource mid st).materials :=
          (fifoLoop_frame iter2 q _ _ _ rs2 w2 heq).1
        rw [hw2]
        exact ⟨retireSource_mem _ _ hsrc,
          fun m hm hi => retireSource_retired _ _ m hm hi⟩

/-- Witness for the C7 theorem: moving all 4 units of material 1 to
location 2 and, separately, removing all 4 units both succeed and leave
the material-1 record unplaced with quantity 0. -/
theorem exact_quantity_retires_source_witness :
    ((∃ m ∈ (moveMaterial noFail [⟨1, 1, 4, 10, 4⟩] sameLocMoveState
        ⟨1, 2, 4⟩).2.materials, m.materialId = 1) ∧
      (∀ m ∈ (moveMaterial noFail [⟨1, 1, 4, 10, 4⟩] sameLocMoveState
        ⟨1, 2, 4⟩).2.materials, m.materialId = 1 →
          m.locationId = none ∧ m.quantity = 0)) ∧
    ((∃ m ∈ (removeMaterial [⟨1, 1, 4, 10, 4⟩] sameLocMoveState
        ⟨1, 4, "JT"⟩).2.materials, m.materialId = 1) ∧
      (∀ m ∈ (removeMaterial [⟨1, 1, 4, 10, 4⟩] sameLocMoveState
        ⟨1, 4, "JT"⟩).2.materials, m.materialId = 1 →
          m.locationId = none ∧ m.quantity = 0)) :=
  ⟨(exact_quantity_retires_source sameLocMoveState noFail [⟨1, 1, 4, 10, 4⟩]
      [⟨1, 1, 4, 10, 4⟩] 1 2 4 "JT"
      ⟨1, "S1", some 1, 1, "film", "", "", 4, true, 0, 0, "Tag", false⟩ rfl rfl).1
      (by decide),
    (exact_quantity_retires_source sameLocMoveState noFail [⟨1, 1, 4, 10, 4⟩]
      [⟨1, 1, 4, 10, 4⟩] 1 2 4 "JT"
      ⟨1, "S1", some 1, 1, "film", "", "", 4, true, 0, 0, "Tag", false⟩ rfl rfl).2
      (by decide)⟩

theorem receiveFinish_incoming (shipment : IncomingRow) (inp : ReceiveInput)
    (step : Nat × DBState) :
    (receiveFinish shipment inp step).2.incoming =
      step.2.incoming.filter (fun r => r.shippingId != inp.intakeId) := by
  simp only [receiveFinish, addTranscation_incoming]
  show (deleteIncomingMaterial
    (upsertPrice step.2 step.1 inp.qty shipment.cost).2 inp.intakeId).incoming = _
  unfold deleteIncomingMaterial
  simp only
  rw [upsertPrice_incoming]

theorem receivePlace_incoming (shipment : IncomingRow) (inp : ReceiveInput)
    (st1 : DBState) : (receivePlace shipment inp st1).2.incoming = st1.incoming := by
  simp only [receivePlace]
  split <;> rfl

theorem createMaterial_ok_incoming (st : DBState) (inp : ReceiveInput)
    (shipment : IncomingRow)
    (hf : st.incoming.find? (fun r => r.shippingId == inp.intakeId) = some shipment) :
    (createMaterial st inp).2.incoming =
      st.incoming.filter (fun r => r.shippingId != inp.intakeId) := by
  simp only [createMaterial, hf]
  split
  next h => rw [receiveFinish_incoming]
  next h => rw [receiveFinish_incoming, receivePlace_incoming]

/-- C8: Receive is not idempotent and consumes its intake at most once:
after a successful Receive, re-running it with the same intake id fails
with the no-row (NotFound) error and leaves the whole state produced by
the first call untouched. -/
theorem second_receive_fails_and_preserves_state
    (st : DBState) (inp : ReceiveInput)
    (hok : isOkResult (createMaterial st inp).1 = true) :
    isOkResult (createMaterial (createMaterial st inp).2 inp).1 = false ∧
    (createMaterial (createMaterial st inp).2 inp).2 = (createMaterial st inp).2 := by
  cases hf : st.incoming.find? (fun r => r.shippingId == inp.intakeId) with
  | none =>
      rw [show createMaterial st inp = (.error ("sql: no rows in result set"), st) from by
        simp only [createMaterial, hf]] at hok
      simp [isOkResult] at hok
  | some shipment =>
      have hnone : (createMaterial st inp).2.incoming.find?
          (fun r => r.shippingId == inp.intakeId) = none := by
        rw [createMaterial_ok_incoming st inp shipment hf]
        apply List.find?_eq_none.mpr
        intro r hr
        have hmem := List.of_mem_filter hr
        simpa using hmem
      have key : ∀ st1 : DBState,
          st1.incoming.find? (fun r => r.shippingId == inp.intakeId) = none →
          isOkResult (createMaterial st1 inp).1 = false ∧
            (createMaterial st1 inp).2 = st1 := by
        intro st1 h1
        constructor
        · simp [createMaterial, h1, isOkResult]
        · simp [createMaterial, h1]
      exact key _ hnone

/-- Witness for the C8 theorem: receiving intake 5 into the empty-stock
state succeeds; the second identical call fails and changes nothing. -/
theorem second_receive_fails_and_preserves_state_witness :
    isOkResult (createMaterial (createMaterial freshReceiveState ⟨5, 1, 20, ""⟩).2
      ⟨5, 1, 20, ""⟩).1 = false ∧
    (createMaterial (createMaterial freshReceiveState ⟨5, 1, 20, ""⟩).2
      ⟨5, 1, 20, ""⟩).2 = (createMaterial freshReceiveState ⟨5, 1, 20, ""⟩).2 :=
  second_receive_fails_and_preserves_state freshReceiveState ⟨5, 1, 20, ""⟩ (by decide)

theorem ledgerMatches_of_qty_log (st st' : DBState) (ts : List TransactionRow)
    (hids : (st.prices.map (fun p => p.priceId)).Nodup)
    (hidseq : st'.prices.map (fun p => p.priceId) = st.prices.map (fun p => p.priceId))
    (hlog : st'.transactionsLog = st.transactionsLog ++ ts)
    (hqty : ∀ x, qtyById st'.prices x = qtyById st.prices x + logSum ts x)
    (hK : LedgerMatches st) : LedgerMatches st' := by
  have hids' : (st'.prices.map (fun p => p.priceId)).Nodup := by
    rw [hidseq]; exact hids
  intro p hp
  have h1 : qtyById st'.prices p.priceId = p.qty := qtyById_of_mem hids' hp
  obtain ⟨p0, hp0, hp0e⟩ : ∃ r ∈ st.prices, r.priceId = p.priceId :=
    present_of_ids_eq (Eq.symm hidseq) ⟨p, hp, rfl⟩
  have h2 : qtyById st.prices p.priceId = p0.qty := by
    rw [← hp0e]; exact qtyById_of_mem hids hp0
  have h3 := hK p0 hp0
  unfold ledgerSumFor at h3 ⊢
  rw [hlog, logSum_append, ← h1, hqty p.priceId, h2, h3, hp0e]

theorem upsertPrice_conflict {st : DBState} {mid : Nat} {q c : Int} {p : PriceRow}
    (hfind : st.prices.find? (fun r => r.materialId == mid && r.cost == c) = some p) :
    upsertPrice st mid q c = (p.priceId,
      { st with prices :=
          bumpPrices (fun r => r.materialId == mid && r.cost == c) q st.prices }) := by
  unfold upsertPrice
  rw [hfind]

theorem upsertPrice_insert {st : DBState} {mid : Nat} {q c : Int}
    (hfind : st.prices.find? (fun r => r.materialId == mid && r.cost == c) = none) :
    upsertPrice st mid q c = (st.nextPriceId,
      { st with prices := st.prices ++ [⟨st.nextPriceId, mid, q, c, q⟩],
                nextPriceId := st.nextPriceId + 1 }) := by
  unfold upsertPrice
  rw [hfind]

theorem upsert_step_preserves (st : DBState) (mid : Nat) (q c : Int) (n j : String)
    (hS : LotSchema st) (hK : LedgerMatches st) :
    LotSchema (addTranscation (upsertPrice st mid q c).2
      ⟨(upsertPrice st mid q c).1, q, n, j⟩) ∧
    LedgerMatches (addTranscation (upsertPrice st mid q c).2
      ⟨(upsertPrice st mid q c).1, q, n, j⟩) := by
  obtain ⟨hids, hpair, hfresh, hlogb⟩ := hS
  cases hfind : st.prices.find? (fun r => r.materialId == mid && r.cost == c) with
  | some p =>
      rw [upsertPrice_conflict hfind]
      have hpm : p ∈ st.prices := List.mem_of_find?_eq_some hfind
      have hcond := List.find?_some hfind
      have huniq : ∀ r ∈ st.prices, (r.materialId == mid && r.cost == c) = true → r = p := by
        intro r hr hcr
        apply List.inj_on_of_nodup_map hpair hr hpm
        simp only [Bool.and_eq_true, beq_iff_eq] at hcr hcond
        rw [hcr.1, hcr.2, hcond.1, hcond.2]
      constructor
      · refine ⟨?_, ?_, ?_, ?_⟩
        · show ((bumpPrices (fun r => r.materialId == mid && r.cost == c) q
            st.prices).map (fun p => p.priceId)).Nodup
          rw [bumpPrices_ids]; exact hids
        · show ((bumpPrices (fun r => r.materialId == mid && r.cost == c) q
            st.prices).map (fun p => (p.materialId, p.cost))).Nodup
          rw [bumpPrices_midCost]; exact hpair
        · show ∀ z ∈ bumpPrices (fun r => r.materialId == mid && r.cost == c) q
            st.prices, z.priceId < st.nextPriceId
          exact bound_of_ids_eq (bumpPrices_ids _ _ _) hfresh
        · show ∀ t ∈ st.transactionsLog ++ [⟨p.priceId, q, n, j⟩],
            t.priceId < st.nextPriceId
          intro t ht
          rcases List.mem_append.mp ht with h | h
          · exact hlogb t h
          · simp only [List.mem_singleton] at h
            subst h
            exact hfresh p hpm
      · apply ledgerMatches_of_qty_log st _ [⟨p.priceId, q, n, j⟩] hids ?_ rfl ?_ hK
        · exact bumpPrices_ids _ _ _
        · intro x
          show qtyById (bumpPrices (fun r => r.materialId == mid && r.cost == c) q
            st.prices) x = qtyById st.prices x + logSum [⟨p.priceId, q, n, j⟩] x
          rw [qtyById_bump_single q x hpm hcond huniq hids, logSum_single]
          by_cases hx : x = p.priceId
          · rw [if_pos hx, if_pos (by simp [hx])]
          · rw [if_neg hx, if_neg (by simp only; exact fun he => hx he.symm)]
  | none =>
      rw [upsertPrice_insert hfind]
      have hnotin : ∀ r ∈ st.prices, ¬((r.materialId == mid && r.cost == c) = true) :=
        fun r hr => List.find?_eq_none.mp hfind r hr
      constructor
      · refine ⟨?_, ?_, ?_, ?_⟩
        · show ((st.prices ++ [(⟨st.nextPriceId, mid, q, c, q⟩ : PriceRow)]).map
            (fun p => p.priceId)).Nodup
          rw [List.map_append, List.nodup_append]
          refine ⟨hids, List.nodup_singleton _, ?_⟩
          intro a ha hb
          simp only [List.map_cons, List.map_nil, List.mem_singleton] at hb
          subst hb
          obtain ⟨r, hr, hre⟩ := List.mem_map.mp ha
          have := hfresh r hr
          omega
        · show ((st.prices ++ [(⟨st.nextPriceId, mid, q, c, q⟩ : PriceRow)]).map
            (fun p => (p.materialId, p.cost))).Nodup
          rw [List.map_append, List.nodup_append]
          refine ⟨hpair, List.nodup_singleton _, ?_⟩
          intro a ha hb
          simp only [List.map_cons, List.map_nil, List.mem_singleton] at hb
          subst hb
          obtain ⟨r, hr, hre⟩ := List.mem_map.mp ha
          apply hnotin r hr
          simp only [Prod.mk.injEq] at hre
          simp [hre.1, hre.2]
        · intro z hz
          show z.priceId < st.nextPriceId + 1
          rcases List.mem_append.mp hz with h | h
          · have := hfresh z h; omega
          · simp only [List.mem_singleton] at h
            subst h
            show st.nextPriceId < st.nextPriceId + 1
            omega
        · intro t ht
          show t.priceId < st.nextPriceId + 1
          rcases List.mem_append.mp ht with h | h
          · have := hlogb t h; omega
          · simp only [List.mem_singleton] at h
            subst h
            show st.nextPriceId < st.nextPriceId + 1
            omega
      · intro p' hp'
        unfold ledgerSumFor
        show p'.qty = logSum (st.transactionsLog ++ [⟨st.nextPriceId, q, n, j⟩])
          p'.priceId
        rw [logSum_append, logSum_single]
        rcases List.mem_append.mp hp' with h | h
        · have hlt := hfresh p' h
          have hK' := hK p' h
          unfold ledgerSumFor at hK'
          rw [if_neg (show ¬(⟨st.nextPriceId, q, n, j⟩ : TransactionRow).priceId
            = p'.priceId from by
              intro he
              have he2 : st.nextPriceId = p'.priceId := he
              omega)]
          omega
        · simp only [List.mem_singleton] at h
          subst h
          rw [if_pos rfl,
            logSum_of_absent _ _ (fun t ht => by
              have h2 := hlogb t ht
              show t.priceId ≠ st.nextPriceId
              omega)]
          show q = 0 + q
          omega

theorem upsertFold_preserves (l : List (Int × Int)) (mid : Nat) (n j : String) :
    ∀ (w : DBState), LotSchema w → LedgerMatches w →
      LotSchema (l.foldl (fun (w : DBState) (rp : Int × Int) =>
        addTranscation (upsertPrice w mid rp.1 rp.2).2
          ⟨(upsertPrice w mid rp.1 rp.2).1, rp.1, n, j⟩) w) ∧
      LedgerMatches (l.foldl (fun (w : DBState) (rp : Int × Int) =>
        addTranscation (upsertPrice w mid rp.1 rp.2).2
          ⟨(upsertPrice w mid rp.1 rp.2).1, rp.1, n, j⟩) w) := by
  induction l with
  | nil => intro w hS hK; exact ⟨hS, hK⟩
  | cons rp l ih =>
      intro w hS hK
      rw [List.foldl_cons]
      have hstep := upsert_step_preserves w mid rp.1 rp.2 n j hS hK
      exact ih _ hstep.1 hstep.2

theorem receivePlace_frame (shipment : IncomingRow) (inp : ReceiveInput)
    (st1 : DBState) :
    (receivePlace shipment inp st1).2.prices = st1.prices ∧
    (receivePlace shipment inp st1).2.transactionsLog = st1.transactionsLog ∧
    (receivePlace shipment inp st1).2.nextPriceId = st1.nextPriceId := by
  simp only [receivePlace]
  split <;> exact ⟨rfl, rfl, rfl⟩

theorem receiveFinish_preserves (shipment : IncomingRow) (inp : ReceiveInput)
    (step : Nat × DBState) (hS : LotSchema step.2) (hK : LedgerMatches step.2) :
    LotSchema (receiveFinish shipment inp step).2 ∧
    LedgerMatches (receiveFinish shipment inp step).2 := by
  have h := upsert_step_preserves step.2 step.1 inp.qty shipment.cost inp.notes
    ("") hS hK
  exact ⟨lotSchema_congr rfl rfl rfl h.1, ledgerMatches_congr rfl rfl h.2⟩

theorem createMaterial_preserves (st : DBState) (inp : ReceiveInput)
    (hS : LotSchema st) (hK : LedgerMatches st) :
    LotSchema (createMaterial st inp).2 ∧ LedgerMatches (createMaterial st inp).2 := by
  simp only [createMaterial]
  split
  next heq => exact ⟨hS, hK⟩
  next shipment heq =>
    split
    next h =>
      exact receiveFinish_preserves _ _ _
        (lotSchema_congr rfl rfl rfl hS) (ledgerMatches_congr rfl rfl hK)
    next h =>
      refine receiveFinish_preserves _ _ _ ?_ ?_
      · exact lotSchema_congr (receivePlace_frame _ _ _).1 (receivePlace_frame _ _ _).2.1
          (receivePlace_frame _ _ _).2.2 (lotSchema_congr rfl rfl rfl hS)
      · exact ledgerMatches_congr (receivePlace_frame _ _ _).1
          (receivePlace_frame _ _ _).2.1 (ledgerMatches_congr rfl rfl hK)

theorem moveDest_preserves (fs : FailSpec) (curr : MaterialRow) (inp : MoveInput)
    (st0 w2 : DBState) (removed : List (Int × Int))
    (hS0 : LotSchema st0) (hK0 : LedgerMatches st0)
    (hS2 : LotSchema w2) (hK2 : LedgerMatches w2) :
    LotSchema (moveDest fs curr inp st0 w2 removed).2 ∧
    LedgerMatches (moveDest fs curr inp st0 w2 removed).2 := by
  simp only [moveDest]
  by_cases hfd : fs.failDestUpdate = true
  · rw [if_pos hfd]
    dsimp only
    split
    · exact ⟨lotSchema_congr rfl rfl rfl hS2, ledgerMatches_congr rfl rfl hK2⟩
    · exact ⟨hS2, hK2⟩
  · rw [if_neg hfd]
    dsimp only
    by_cases hfu : fs.failDestUpsert = true
    · rw [if_pos hfu]
      dsimp only
      split
      · exact ⟨lotSchema_congr rfl rfl rfl hS0, ledgerMatches_congr rfl rfl hK0⟩
      · exact ⟨lotSchema_congr rfl rfl rfl hS0, ledgerMatches_congr rfl rfl hK0⟩
    · rw [if_neg hfu]
      dsimp only
      have hupd : ∀ (M : Nat) (B : DBState), B.prices = w2.prices →
          B.transactionsLog = w2.transactionsLog → B.nextPriceId = w2.nextPriceId →
          LotSchema (removed.foldl (fun (w : DBState) (rp : Int × Int) =>
            addTranscation (upsertPrice w M rp.1 rp.2).2
              ⟨(upsertPrice w M rp.1 rp.2).1, rp.1, "Moved FROM a Location",
                "Auto-Ticket"⟩) B) ∧
          LedgerMatches (removed.foldl (fun (w : DBState) (rp : Int × Int) =>
            addTranscation (upsertPrice w M rp.1 rp.2).2
              ⟨(upsertPrice w M rp.1 rp.2).1, rp.1, "Moved FROM a Location",
                "Auto-Ticket"⟩) B) := by
        intro M B h1 h2 h3
        exact upsertFold_preserves removed M _ _ B
          (lotSchema_congr h1 h2 h3 hS2) (ledgerMatches_congr h1 h2 hK2)
      split
      next hb =>
        split
        next hfound =>
          dsimp only
          have h := hupd
            (lastScannedId (st0.materials.filter (fun m =>
              m.stockId == curr.stockId && m.locationId == some inp.locationId &&
                m.owner == curr.owner)))
            { w2 with materials := w2.materials.map (fun m =>
                if m.stockId == curr.stockId && m.locationId == some inp.locationId &&
                    m.owner == curr.owner
                then { m with quantity := m.quantity + inp.qty } else m) }
            rfl rfl rfl
          exact ⟨lotSchema_congr rfl rfl rfl h.1, ledgerMatches_congr rfl rfl h.2⟩
        next hfound =>
          dsimp only
          have h := hupd w2.nextMaterialId
            { w2 with
                materials := (w2.materials.map (fun m =>
                  if m.stockId == curr.stockId && m.locationId == some inp.locationId &&
                      m.owner == curr.owner
                  then { m with quantity := m.quantity + inp.qty } else m)) ++
                  [⟨w2.nextMaterialId, curr.stockId, some inp.locationId,
                    curr.customerId, curr.materialType, curr.description, curr.notes,
                    inp.qty, curr.isActive, curr.minQty, curr.maxQty, curr.owner,
                    false⟩],
                nextMaterialId := w2.nextMaterialId + 1 }
            rfl rfl rfl
          exact ⟨lotSchema_congr rfl rfl rfl h.1, ledgerMatches_congr rfl rfl h.2⟩
      next hb =>
        split
        next hfound =>
          dsimp only
          exact hupd _ _ rfl rfl rfl
        next hfound =>
          dsimp only
          exact hupd _ _ rfl rfl rfl

theorem moveMaterial_preserves (fs : FailSpec) (iteration : List PriceRow)
    (st : DBState) (inp : MoveInput) (hS : LotSchema st) (hK : LedgerMatches st) :
    LotSchema (moveMaterial fs iteration st inp).2 ∧
    LedgerMatches (moveMaterial fs iteration st inp).2 := by
  simp only [moveMaterial]
  split
  next e heq => exact ⟨hS, hK⟩
  next curr heq =>
    split
    next hlt => exact ⟨hS, hK⟩
    next hlt =>
      split
      next e heq2 => exact ⟨hS, hK⟩
      next w1 heq2 =>
        have hw1 : LotSchema w1 ∧ LedgerMatches w1 := by
          split at heq2
          next hps =>
            split at heq2
            next heq3 => cases heq2
            next a heq3 =>
              simp only [Except.ok.injEq] at heq2
              rw [← heq2]
              exact ⟨lotSchema_congr rfl rfl rfl hS, ledgerMatches_congr rfl rfl hK⟩
          next hps =>
            simp only [Except.ok.injEq] at heq2
            rw [← heq2]
            exact ⟨hS, hK⟩
        split
        next e heq3 => exact ⟨hS, hK⟩
        next removedPrices w2 heq3 =>
          have hw2S := fifoLoop_preserves_lotSchema iteration inp.qty _ _ w1
            removedPrices w2 hw1.1 heq3
          have hw2K := fifoLoop_preserves_ledger iteration inp.qty _ _ w1
            removedPrices w2 hw1.1.1 hw1.2 heq3
          exact moveDest_preserves fs curr inp st w2 removedPrices hS hK hw2S hw2K

theorem removeMaterial_preserves (iteration : List PriceRow) (st : DBState)
    (inp : RemoveInput) (hS : LotSchema st) (hK : LedgerMatches st) :
    LotSchema (removeMaterial iteration st inp).2 ∧
    LedgerMatches (removeMaterial iteration st inp).2 := by
  simp only [removeMaterial]
  split
  next e heq => exact ⟨hS, hK⟩
  next curr heq =>
    split
    next hlt => exact ⟨hS, hK⟩
    next hlt =>
      split
      next e heq2 => exact ⟨hS, hK⟩
      next rs2 w2 heq2 =>
        split at heq2
        next hb =>
          have hw1 : LotSchema (retireSource inp.materialId st) ∧
              LedgerMatches (retireSource inp.materialId st) :=
            ⟨lotSchema_congr rfl rfl rfl hS, ledgerMatches_congr rfl rfl hK⟩
          exact ⟨fifoLoop_preserves_lotSchema iteration inp.qty _ _ _ rs2 w2 hw1.1 heq2,
            fifoLoop_preserves_ledger iteration inp.qty _ _ _ rs2 w2 hw1.1.1 hw1.2 heq2⟩
        next hb =>
          have hw1 : LotSchema { st with materials := st.materials.map (fun m =>
              if m.materialId == inp.materialId then
                { m with quantity := m.quantity - inp.qty } else m) } ∧
              LedgerMatches { st with materials := st.materials.map (fun m =>
              if m.materialId == inp.materialId then
                { m with quantity := m.quantity - inp.qty } else m) } :=
            ⟨lotSchema_congr rfl rfl rfl hS, ledgerMatches_congr rfl rfl hK⟩
          exact ⟨fifoLoop_preserves_lotSchema iteration inp.qty _ _ _ rs2 w2 hw1.1 heq2,
            fifoLoop_preserves_ledger iteration inp.qty _ _ _ rs2 w2 hw1.1.1 hw1.2 heq2⟩

theorem updateMaterial_preserves (st : DBState) (inp : AdjustInput)
    (hS : LotSchema st) (hK : LedgerMatches st) :
    LotSchema (updateMaterial st inp).2 ∧ LedgerMatches (updateMaterial st inp).2 :=
  ⟨lotSchema_congr rfl rfl rfl hS, ledgerMatches_congr rfl rfl hK⟩

/-- C9 amended claim: every lot reconciles against the transaction log
with the creation counted once: in any schema-well-formed state where
each lot's quantity equals the sum of all its ledger deltas (its creating
INSERT being itself ledgered, i.e. the initial quantity contributes 0,
not the creation quantity), every command — Receive, Move (under any
iteration order and any injected store failure), Remove, Adjust —
leaves a state with the same property, whether it succeeds, rolls back,
or partially commits. -/
theorem commands_preserve_ledger_reconciliation
    (iteration : List PriceRow) (c : Command) (st : DBState)
    (hS : SchemaWF st) (hK : LedgerMatches st) :
    LedgerMatches (runCommand iteration c st).2 := by
  have hLS : LotSchema st :=
    ⟨hS.2.2.1, hS.2.2.2.2.1, fun p hp => (hS.2.2.2.1 p hp).1, hS.2.2.2.2.2⟩
  cases c with
  | receive inp => exact (createMaterial_preserves st inp hLS hK).2
  | move fs inp => exact (moveMaterial_preserves fs iteration st inp hLS hK).2
  | remove inp => exact (removeMaterial_preserves iteration st inp hLS hK).2
  | adjust inp => exact (updateMaterial_preserves st inp hLS hK).2

/-- Witness for the amended C9 theorem: the fresh Receive keeps every lot
equal to the sum of its ledger deltas. -/
theorem commands_preserve_ledger_reconciliation_witness :
    LedgerMatches (runCommand [] (.receive ⟨5, 1, 20, ""⟩) freshReceiveState).2 :=
  commands_preserve_ledger_reconciliation [] (.receive ⟨5, 1, 20, ""⟩)
    freshReceiveState (by decide) (by decide)

/-- C9 counterexample: the claim reconciles a lot as initial creation
quantity plus the sum of its ledger deltas, but the creating INSERT is
itself ledgered: a fresh Receive of 20 units creates a lot with quantity
20 and initial quantity 20 and also appends a +20 ledger row, so
quantity (20) differs from initial + deltas (40). -/
theorem lot_creation_double_counts_initial_quantity :
    isOkResult (createMaterial freshReceiveState ⟨5, 1, 20, ""⟩).1 = true ∧
    ∃ p ∈ (createMaterial freshReceiveState ⟨5, 1, 20, ""⟩).2.prices,
      p.qty ≠ p.initialQty +
        ledgerSumFor (createMaterial freshReceiveState ⟨5, 1, 20, ""⟩).2 p.priceId := by
  exact ⟨rfl, by decide⟩

end InventoryLedger
